import Mathlib

/-!
Shallow embedding of `src/analizador_lexico.py`, a lexical analyzer for a small
C-like language, together with proofs about it.

The Python class `Lexer` holds the source buffer and a cursor `(i, linea,
columna)`.  Its loops are embedded as structurally recursive functions on an
explicit fuel argument; each public entry point is a wrapper that supplies the
fuel `fuente.length - i + 1`, which the lemmas below show is always sufficient
(the loops advance the cursor on every iteration), so the out-of-fuel branches
are unreachable from the wrappers.
-/

/-- The sentinel character that `Lexer._peek` returns past the end of the input
(Python's `"\0"`).  An in-range NUL character of the source is indistinguishable
from this sentinel. -/
def nulChar : Char := Char.ofNat 0

/-- Model of Python's `str.isalpha` on the code points this development
exercises: the ASCII letters plus the Latin-1 letters (ª, µ, º and the ranges
À–Ö, Ø–ö, ø–ÿ).  Python's `isalpha` accepts further letters above U+00FF; no
input considered in this development contains any. -/
def pyIsAlpha (c : Char) : Bool :=
  c.isAlpha || c.toNat == 0xAA || c.toNat == 0xB5 || c.toNat == 0xBA ||
    (0xC0 ≤ c.toNat && c.toNat ≤ 0xFF && c.toNat != 0xD7 && c.toNat != 0xF7)

/-- Model of Python's `str.isdigit` on code points below U+0100: the ASCII
digits plus the Latin-1 superscripts ¹, ², ³. -/
def pyIsDigit (c : Char) : Bool :=
  c.isDigit || c.toNat == 0xB2 || c.toNat == 0xB3 || c.toNat == 0xB9

/-- The token-code table `TOKEN` of the source (a dict from kind name to the
numeric code). -/
def TOKEN (k : String) : Nat :=
  if k = "identificador" then 0
  else if k = "entero" then 1
  else if k = "real" then 2
  else if k = "cadena" then 3
  else if k = "tipo" then 4
  else if k = "opSuma" then 5
  else if k = "opMul" then 6
  else if k = "opRelac" then 7
  else if k = "opOr" then 8
  else if k = "opAnd" then 9
  else if k = "opNot" then 10
  else if k = "opIgualdad" then 11
  else if k = ";" then 12
  else if k = "," then 13
  else if k = "(" then 14
  else if k = ")" then 15
  else if k = "\x7b" then 16
  else if k = "\x7d" then 17
  else if k = "=" then 18
  else if k = "if" then 19
  else if k = "while" then 20
  else if k = "return" then 21
  else if k = "else" then 22
  else if k = "$" then 23
  else 24

/-- The `RESERVED_SINGLE` table: the four control keywords, each mapped to its
own token code. -/
def RESERVED_SINGLE (lex : List Char) : Option Nat :=
  if lex = "if".toList then some (TOKEN "if")
  else if lex = "while".toList then some (TOKEN "while")
  else if lex = "return".toList then some (TOKEN "return")
  else if lex = "else".toList then some (TOKEN "else")
  else none

/-- Membership in `RESERVED_TYPES = {"int", "float", "void"}`. -/
def RESERVED_TYPES (lex : List Char) : Bool :=
  lex == "int".toList || lex == "float".toList || lex == "void".toList

/-- A token: numeric kind code, exact lexeme (as the list of source
characters), and the 1-based line and column of its first character. -/
structure Token where
  tipo : Nat
  lexema : List Char
  linea : Nat
  columna : Nat
deriving DecidableEq, Repr

/-- `LexerError(message, linea, columna)`. -/
structure LexerError where
  msg : String
  linea : Nat
  columna : Nat
deriving DecidableEq, Repr

/-- The error a fuelled loop reports when run out of fuel; it is never produced
by the fuel bounds the wrappers below supply, as the sufficiency lemmas show. -/
def fuelErr : LexerError := ⟨"INSUFFICIENT FUEL", 0, 0⟩

/-- The message of the `Símbolo inesperado` error (Python interpolates the
offending character into the f-string). -/
def msgInesperado (c : Char) : String := "Símbolo inesperado: ".push c

/-- The scanner state: source buffer plus the cursor `(i, linea, columna)`.
The source also stores `n = len(fuente)`, modelled here as `fuente.length`. -/
structure Lexer where
  fuente : List Char
  i : Nat
  linea : Nat
  columna : Nat
deriving DecidableEq, Repr

/-- `Lexer.__init__`: cursor at offset 0, line 1, column 1. -/
def Lexer.init (fuente : List Char) : Lexer := ⟨fuente, 0, 1, 1⟩

/-- `_peek(k)`: the character at `i + k`, or the NUL sentinel when out of
range. -/
def Lexer.peek (s : Lexer) (k : Nat) : Char := s.fuente.getD (s.i + k) nulChar

/-- `_advance()`: consume and return the current character; a newline bumps
`linea` and resets `columna` to 1, any other character bumps `columna`. -/
def Lexer.advance (s : Lexer) : Char × Lexer :=
  let ch := s.peek 0
  if ch = '\n' then (ch, ⟨s.fuente, s.i + 1, s.linea + 1, 1⟩)
  else (ch, ⟨s.fuente, s.i + 1, s.linea, s.columna + 1⟩)

/-- The state after one `_advance()`. -/
def Lexer.adv (s : Lexer) : Lexer := (s.advance).2

/-- The state after `k` successive `_advance()` calls. -/
def Lexer.advanceN (s : Lexer) : Nat → Lexer
  | 0 => s
  | k + 1 => s.adv.advanceN k

/-- Python slicing `fuente[a:b]` (for `a ≤ b`; empty otherwise, as in
Python). -/
def pySlice (f : List Char) (a b : Nat) : List Char := (f.drop a).take (b - a)

/-- Length of the maximal run of `pyIsDigit` characters starting at index
`i`. -/
def digitRun (f : List Char) (i : Nat) : Nat := ((f.drop i).takeWhile pyIsDigit).length

/-- `is_letter` of `_scan_ident_or_reserved`: alphabetic or underscore. -/
def isLetter (c : Char) : Bool := pyIsAlpha c || c == '_'

/-- The inner `while` of the `//` comment branch of `_skip_whitespace`:
consume characters until a newline or the end-of-input sentinel. -/
def skipLineCommentF : Nat → Lexer → Lexer
  | 0, s => s
  | fuel + 1, s =>
    if s.peek 0 ≠ '\n' ∧ s.peek 0 ≠ nulChar then skipLineCommentF fuel s.adv else s

/-- `skipLineCommentF` at the always-sufficient fuel bound. -/
def skipLineComment (s : Lexer) : Lexer :=
  skipLineCommentF (s.fuente.length - s.i + 1) s

/-- The inner `while True` of the `/* */` comment branch of
`_skip_whitespace`: error at the sentinel, stop after `*/`, else advance. -/
def skipBlockCommentF : Nat → Lexer → Except LexerError Unit × Lexer
  | 0, s => (.error fuelErr, s)
  | fuel + 1, s =>
    if s.peek 0 = nulChar then
      (.error ⟨"Comentario bloque sin cerrar", s.linea, s.columna⟩, s)
    else if s.peek 0 = '*' ∧ s.peek 1 = '/' then (.ok (), s.adv.adv)
    else skipBlockCommentF fuel s.adv

/-- `skipBlockCommentF` at the always-sufficient fuel bound. -/
def skipBlockComment (s : Lexer) : Except LexerError Unit × Lexer :=
  skipBlockCommentF (s.fuente.length - s.i + 1) s

/-- `_skip_whitespace`: consume blanks, `//` comments and `/* */` comments
(the latter can fail on an unterminated comment). -/
def skipWhitespaceF : Nat → Lexer → Except LexerError Unit × Lexer
  | 0, s => (.error fuelErr, s)
  | fuel + 1, s =>
    if s.peek 0 = ' ' ∨ s.peek 0 = '\t' ∨ s.peek 0 = '\r' ∨ s.peek 0 = '\n' then
      skipWhitespaceF fuel s.adv
    else if s.peek 0 = '/' ∧ s.peek 1 = '/' then
      skipWhitespaceF fuel (skipLineComment s)
    else if s.peek 0 = '/' ∧ s.peek 1 = '*' then
      match skipBlockComment s.adv.adv with
      | (.error e, s') => (.error e, s')
      | (.ok _, s') => skipWhitespaceF fuel s'
    else (.ok (), s)

/-- `skipWhitespaceF` at the always-sufficient fuel bound. -/
def skipWhitespace (s : Lexer) : Except LexerError Unit × Lexer :=
  skipWhitespaceF (s.fuente.length - s.i + 1) s

/-- The `while is_letter or is_digit` loop of `_scan_ident_or_reserved`. -/
def scanIdentLoopF : Nat → Lexer → Lexer
  | 0, s => s
  | fuel + 1, s =>
    if isLetter (s.peek 0) || pyIsDigit (s.peek 0) then scanIdentLoopF fuel s.adv else s

/-- `scanIdentLoopF` at the always-sufficient fuel bound. -/
def scanIdentLoop (s : Lexer) : Lexer :=
  scanIdentLoopF (s.fuente.length - s.i + 1) s

/-- `_scan_ident_or_reserved`: maximal `letter (letter | digit)*` run, then the
keyword lookups.  The Python `AssertionError` for a bad invocation is modelled
as an error result; the dispatch in `tokens` guards it out. -/
def scanIdentOrReserved (s : Lexer) : Except LexerError Token × Lexer :=
  if ¬ isLetter (s.peek 0) then
    (.error ⟨"AssertionError: _scan_ident_or_reserved mal invocado", s.linea, s.columna⟩, s)
  else
    let s1 := scanIdentLoop s.adv
    let lex := pySlice s.fuente s.i s1.i
    match RESERVED_SINGLE lex with
    | some code => (.ok ⟨code, lex, s.linea, s.columna⟩, s1)
    | none =>
      if RESERVED_TYPES lex then (.ok ⟨TOKEN "tipo", lex, s.linea, s.columna⟩, s1)
      else (.ok ⟨TOKEN "identificador", lex, s.linea, s.columna⟩, s1)

/-- The `while isdigit` loops of `_scan_number`. -/
def scanDigitsF : Nat → Lexer → Lexer
  | 0, s => s
  | fuel + 1, s => if pyIsDigit (s.peek 0) then scanDigitsF fuel s.adv else s

/-- `scanDigitsF` at the always-sufficient fuel bound. -/
def scanDigits (s : Lexer) : Lexer :=
  scanDigitsF (s.fuente.length - s.i + 1) s

/-- `_scan_number`: maximal digit run, then `.` plus digits only when the
two-character lookahead sees `. digit`; the inner `if` is the source's
defensive check for a `.` not followed by a digit. -/
def scanNumber (s : Lexer) : Except LexerError Token × Lexer :=
  let s1 := scanDigits s
  if s1.peek 0 = '.' ∧ pyIsDigit (s1.peek 1) then
    let s2 := s1.adv
    if ¬ pyIsDigit (s2.peek 0) then
      (.error ⟨"Se esperaba al menos un dígito después del punto", s2.linea, s2.columna⟩, s2)
    else
      let s3 := scanDigits s2
      (.ok ⟨TOKEN "real", pySlice s.fuente s.i s3.i, s.linea, s.columna⟩, s3)
  else
    (.ok ⟨TOKEN "entero", pySlice s.fuente s.i s1.i, s.linea, s.columna⟩, s1)

/-- The `while True` of `_scan_string`, with the starting line/column, the
content start offset and the current state; a backslash consumes itself and,
when one exists, the next character, verbatim. -/
def scanStringLoopF : Nat → Nat → Nat → Nat → Lexer → Except LexerError Token × Lexer
  | 0, _, _, _, s => (.error fuelErr, s)
  | fuel + 1, sl, sc, start_i, s =>
    if s.peek 0 = nulChar then (.error ⟨"Cadena sin cerrar", sl, sc⟩, s)
    else if s.peek 0 = '\n' then
      (.error ⟨"Salto de línea dentro de cadena", s.linea, s.columna⟩, s)
    else if s.peek 0 = '"' then
      (.ok ⟨TOKEN "cadena", pySlice s.fuente start_i s.i, sl, sc⟩, s.adv)
    else if s.peek 0 = '\\' then
      if s.adv.peek 0 ≠ nulChar then scanStringLoopF fuel sl sc start_i s.adv.adv
      else scanStringLoopF fuel sl sc start_i s.adv
    else scanStringLoopF fuel sl sc start_i s.adv

/-- `scanStringLoopF` at the always-sufficient fuel bound. -/
def scanStringLoop (sl sc start_i : Nat) (s : Lexer) : Except LexerError Token × Lexer :=
  scanStringLoopF (s.fuente.length - s.i + 1) sl sc start_i s

/-- `_scan_string`: record the starting position, consume the opening quote,
then run the string loop. -/
def scanString (s : Lexer) : Except LexerError Token × Lexer :=
  let s1 := s.adv
  scanStringLoop s.linea s.columna s1.i s1

/-- The `# Un solo carácter` section of the body of `Lexer.tokens`
(`ch = self._advance()` followed by the single-character classification,
else the `Símbolo inesperado` error). -/
def scanSingleChar (s : Lexer) : Except LexerError Token × Lexer :=
  let c := (s.advance).1
  let s1 := (s.advance).2
  if c = '+' ∨ c = '-' then (.ok ⟨TOKEN "opSuma", [c], s.linea, s.columna⟩, s1)
  else if c = '*' ∨ c = '/' then (.ok ⟨TOKEN "opMul", [c], s.linea, s.columna⟩, s1)
  else if c = '<' ∨ c = '>' then (.ok ⟨TOKEN "opRelac", [c], s.linea, s.columna⟩, s1)
  else if c = '!' then (.ok ⟨TOKEN "opNot", [c], s.linea, s.columna⟩, s1)
  else if c = '=' then (.ok ⟨TOKEN "=", [c], s.linea, s.columna⟩, s1)
  else if c = ';' then (.ok ⟨TOKEN ";", [c], s.linea, s.columna⟩, s1)
  else if c = ',' then (.ok ⟨TOKEN ",", [c], s.linea, s.columna⟩, s1)
  else if c = '(' then (.ok ⟨TOKEN "(", [c], s.linea, s.columna⟩, s1)
  else if c = ')' then (.ok ⟨TOKEN ")", [c], s.linea, s.columna⟩, s1)
  else if c = '\x7b' then (.ok ⟨TOKEN "\x7b", [c], s.linea, s.columna⟩, s1)
  else if c = '\x7d' then (.ok ⟨TOKEN "\x7d", [c], s.linea, s.columna⟩, s1)
  else (.error ⟨msgInesperado c, s.linea, s.columna⟩, s1)

/-- The `# Operadores y separadores` section of the body of `Lexer.tokens`:
the two-character operators are checked first, then the single-character
classification. -/
def scanOpPunct (s : Lexer) : Except LexerError Token × Lexer :=
  if s.peek 0 = '=' ∧ s.peek 1 = '=' then
    (.ok ⟨TOKEN "opIgualdad", "==".toList, s.linea, s.columna⟩, s.adv.adv)
  else if s.peek 0 = '!' ∧ s.peek 1 = '=' then
    (.ok ⟨TOKEN "opIgualdad", "!=".toList, s.linea, s.columna⟩, s.adv.adv)
  else if s.peek 0 = '<' ∧ s.peek 1 = '=' then
    (.ok ⟨TOKEN "opRelac", "<=".toList, s.linea, s.columna⟩, s.adv.adv)
  else if s.peek 0 = '>' ∧ s.peek 1 = '=' then
    (.ok ⟨TOKEN "opRelac", ">=".toList, s.linea, s.columna⟩, s.adv.adv)
  else if s.peek 0 = '&' ∧ s.peek 1 = '&' then
    (.ok ⟨TOKEN "opAnd", "&&".toList, s.linea, s.columna⟩, s.adv.adv)
  else if s.peek 0 = '|' ∧ s.peek 1 = '|' then
    (.ok ⟨TOKEN "opOr", "||".toList, s.linea, s.columna⟩, s.adv.adv)
  else scanSingleChar s

/-- One dispatch of the body of `Lexer.tokens` when the current character is
not the end sentinel: identifiers, numbers, strings, then the
operator/punctuation section. -/
def scanOne (s : Lexer) : Except LexerError Token × Lexer :=
  let ch := s.peek 0
  if pyIsAlpha ch || ch == '_' then scanIdentOrReserved s
  else if pyIsDigit ch then scanNumber s
  else if ch = '"' then scanString s
  else scanOpPunct s

/-- The outcome of running `Lexer.tokens` to completion: the tokens yielded in
order, the text each `_skip_whitespace` call consumed (recorded as the source
pySlice between the cursor positions around the call), the cursor offset at which
each token's scan started, the final cursor state, and the error that aborted
the generator, if any. -/
structure ScanResult where
  toks : List Token
  skips : List (List Char)
  starts : List Nat
  final : Lexer
  err : Option LexerError
deriving DecidableEq, Repr

/-- The `while True` loop of `Lexer.tokens`: skip whitespace; at the sentinel
yield the `$` token and stop; otherwise dispatch one scan and continue. -/
def tokensFromF : Nat → Lexer → ScanResult
  | 0, s => ⟨[], [], [], s, some fuelErr⟩
  | fuel + 1, s =>
    match skipWhitespace s with
    | (.error e, s1) => ⟨[], [pySlice s.fuente s.i s1.i], [], s1, some e⟩
    | (.ok _, s1) =>
      if s1.peek 0 = nulChar then
        ⟨[⟨TOKEN "$", "$".toList, s1.linea, s1.columna⟩], [pySlice s.fuente s.i s1.i],
          [s1.i], s1, none⟩
      else
        match scanOne s1 with
        | (.error e, s2) => ⟨[], [pySlice s.fuente s.i s1.i], [], s2, some e⟩
        | (.ok t, s2) =>
          let r := tokensFromF fuel s2
          ⟨t :: r.toks, pySlice s.fuente s.i s1.i :: r.skips, s1.i :: r.starts, r.final, r.err⟩

/-- `tokensFromF` at the always-sufficient fuel bound. -/
def tokensFrom (s : Lexer) : ScanResult :=
  tokensFromF (s.fuente.length - s.i + 1) s

/-- Run `Lexer(fuente).tokens()` to completion. -/
def tokens (fuente : List Char) : ScanResult := tokensFrom (Lexer.init fuente)

/-- The source text a token accounts for: its lexeme, except that a string
token's lexeme is wrapped back into its delimiting quotes and the end token's
synthetic lexeme `$` corresponds to no source text. -/
def payload (t : Token) : List Char :=
  if t.tipo = TOKEN "cadena" then '"' :: (t.lexema ++ ['"'])
  else if t.tipo = TOKEN "$" then []
  else t.lexema

/-- Interleave skipped slices with token payloads, in source order. -/
def interleave : List (List Char) → List (List Char) → List Char
  | [], _ => []
  | x :: _, [] => x
  | x :: xs, y :: ys => x ++ (y ++ interleave xs ys)

/-- The cursor's line is one more than the number of newlines before it. -/
def lineInv (s : Lexer) : Prop :=
  s.linea = 1 + ((s.fuente.take s.i).count '\n')

/-! ### Basic cursor lemmas -/

theorem peek_def (s : Lexer) (k : Nat) : s.peek k = s.fuente.getD (s.i + k) nulChar := rfl

theorem peek_zero (s : Lexer) : s.peek 0 = s.fuente.getD s.i nulChar := rfl

theorem peek_lt_of_ne_nul {s : Lexer} (h : s.peek 0 ≠ nulChar) : s.i < s.fuente.length := by
  by_contra hn
  apply h
  rw [peek_zero]
  exact List.getD_eq_default _ _ (by omega)

theorem peek_lt_of_ne_nul' {s : Lexer} {k : Nat} (h : s.peek k ≠ nulChar) :
    s.i + k < s.fuente.length := by
  by_contra hn
  apply h
  rw [peek_def]
  exact List.getD_eq_default _ _ (by omega)

theorem Lexer.adv_fuente (s : Lexer) : s.adv.fuente = s.fuente := by
  simp only [Lexer.adv, Lexer.advance]
  split <;> rfl

theorem Lexer.adv_i (s : Lexer) : s.adv.i = s.i + 1 := by
  simp only [Lexer.adv, Lexer.advance]
  split <;> rfl

theorem Lexer.advance_fst (s : Lexer) : (s.advance).1 = s.peek 0 := by
  simp only [Lexer.advance]
  split <;> rfl

theorem Lexer.advance_snd (s : Lexer) : (s.advance).2 = s.adv := rfl

theorem Lexer.adv_nl {s : Lexer} (h : s.peek 0 = '\n') :
    s.adv.linea = s.linea + 1 ∧ s.adv.columna = 1 := by
  simp [Lexer.adv, Lexer.advance, h]

theorem Lexer.adv_not_nl {s : Lexer} (h : ¬ s.peek 0 = '\n') :
    s.adv.linea = s.linea ∧ s.adv.columna = s.columna + 1 := by
  simp [Lexer.adv, Lexer.advance, h]

theorem advanceN_succ (s : Lexer) (k : Nat) : s.advanceN (k + 1) = s.adv.advanceN k := rfl

theorem advanceN_fuente (s : Lexer) (k : Nat) : (s.advanceN k).fuente = s.fuente := by
  induction k generalizing s with
  | zero => rfl
  | succ k ih =>
    show (s.adv.advanceN k).fuente = s.fuente
    rw [ih, Lexer.adv_fuente]

theorem advanceN_i (s : Lexer) (k : Nat) : (s.advanceN k).i = s.i + k := by
  induction k generalizing s with
  | zero => rfl
  | succ k ih =>
    show (s.adv.advanceN k).i = s.i + (k + 1)
    rw [ih, Lexer.adv_i]
    omega

theorem advanceN_add (s : Lexer) (a b : Nat) :
    (s.advanceN a).advanceN b = s.advanceN (a + b) := by
  induction a generalizing s with
  | zero => rw [Nat.zero_add]; rfl
  | succ a ih =>
    show (s.adv.advanceN a).advanceN b = s.advanceN (a + 1 + b)
    rw [ih, show a + 1 + b = (a + b) + 1 by omega]
    rfl

theorem peek_advanceN (s : Lexer) (k j : Nat) : (s.advanceN k).peek j = s.peek (k + j) := by
  rw [peek_def, peek_def, advanceN_fuente, advanceN_i]
  congr 1
  omega

theorem peek_adv (s : Lexer) (j : Nat) : s.adv.peek j = s.peek (1 + j) := by
  have := peek_advanceN s 1 j
  rw [show s.advanceN 1 = s.adv from rfl] at this
  exact this

theorem peek_get {s : Lexer} {k : Nat} (h : s.i + k < s.fuente.length) :
    s.peek k = s.fuente[s.i + k] := by
  rw [peek_def]
  exact List.getD_eq_getElem _ _ h

/-! ### Line-count invariant -/

theorem lineInv_init (f : List Char) : lineInv (Lexer.init f) := by
  simp [lineInv, Lexer.init]

theorem lineInv_adv {s : Lexer} (h : lineInv s) : lineInv s.adv := by
  unfold lineInv at *
  by_cases hn : s.peek 0 = '\n'
  · obtain ⟨h1, h2⟩ := Lexer.adv_nl hn
    have hne : s.peek 0 ≠ nulChar := by rw [hn]; decide
    have hi := peek_lt_of_ne_nul hne
    have hget : s.fuente[s.i] = '\n' := by
      rw [peek_zero, List.getD_eq_getElem _ _ hi] at hn
      exact hn
    rw [h1, Lexer.adv_fuente, Lexer.adv_i, h, List.take_succ,
      List.getElem?_eq_getElem hi, hget]
    simp [List.count_append]
    omega
  · obtain ⟨h1, _⟩ := Lexer.adv_not_nl hn
    rw [h1, Lexer.adv_fuente, Lexer.adv_i, h]
    by_cases hi : s.i < s.fuente.length
    · have hget : s.fuente[s.i] ≠ '\n' := by
        rw [peek_zero, List.getD_eq_getElem _ _ hi] at hn
        exact hn
      rw [List.take_succ, List.getElem?_eq_getElem hi, Option.toList_some, List.count_append,
        List.count_singleton', if_neg hget]
      omega
    · rw [List.take_succ, List.getElem?_eq_none (by omega)]
      simp

theorem lineInv_advanceN {s : Lexer} (h : lineInv s) (k : Nat) : lineInv (s.advanceN k) := by
  induction k generalizing s with
  | zero => exact h
  | succ k ih =>
    rw [advanceN_succ]
    exact ih (lineInv_adv h)

/-! ### Slice lemmas -/

theorem pySlice_self (f : List Char) (a : Nat) : pySlice f a a = [] := by
  simp [pySlice]

theorem pySlice_append {f : List Char} {a b c : Nat} (h1 : a ≤ b) (h2 : b ≤ c) :
    pySlice f a b ++ pySlice f b c = pySlice f a c := by
  unfold pySlice
  rw [show c - a = (b - a) + (c - b) by omega, List.take_add, List.drop_drop,
    show a + (b - a) = b by omega]

theorem pySlice_take (f : List Char) (b : Nat) : pySlice f 0 b = f.take b := by
  simp [pySlice]

theorem pySlice_cons {f : List Char} {a b : Nat} (hab : a < b) (ha : a < f.length) :
    pySlice f a b = f.getD a nulChar :: pySlice f (a + 1) b := by
  unfold pySlice
  rw [List.drop_eq_getElem_cons ha, show b - a = (b - (a + 1)) + 1 by omega,
    List.take_succ_cons, List.getD_eq_getElem _ _ ha]

theorem pySlice_one {f : List Char} {a : Nat} (ha : a < f.length) :
    pySlice f a (a + 1) = [f.getD a nulChar] := by
  rw [pySlice_cons (by omega) ha, pySlice_self]

theorem pySlice_snoc {f : List Char} {a b : Nat} (hab : a ≤ b) (hb : b < f.length) :
    pySlice f a (b + 1) = pySlice f a b ++ [f.getD b nulChar] := by
  rw [← pySlice_append (c := b + 1) hab (by omega), pySlice_one hb]

/-! ### Loop lemmas: line comments, block comments, whitespace -/

theorem skipLineCommentF_advanceN :
    ∀ (fuel : Nat) (s : Lexer), s.fuente.length - s.i < fuel →
      ∃ k, skipLineCommentF fuel s = s.advanceN k := by
  intro fuel
  induction fuel with
  | zero => intro s h; omega
  | succ fuel ih =>
    intro s h
    rw [skipLineCommentF]
    split
    · rename_i hc
      have hlt := peek_lt_of_ne_nul hc.2
      obtain ⟨k, hk⟩ := ih s.adv (by rw [Lexer.adv_fuente, Lexer.adv_i]; omega)
      exact ⟨k + 1, by rw [advanceN_succ]; exact hk⟩
    · exact ⟨0, rfl⟩

theorem skipLineComment_progress {s : Lexer} (h1 : s.peek 0 ≠ '\n') (h2 : s.peek 0 ≠ nulChar) :
    ∃ k, skipLineComment s = s.advanceN (k + 1) := by
  unfold skipLineComment
  have hlt := peek_lt_of_ne_nul h2
  rw [skipLineCommentF, if_pos ⟨h1, h2⟩]
  obtain ⟨k, hk⟩ :=
    skipLineCommentF_advanceN (s.fuente.length - s.i) s.adv
      (by rw [Lexer.adv_fuente, Lexer.adv_i]; omega)
  exact ⟨k, by rw [advanceN_succ]; exact hk⟩

theorem skipLineComment_advanceN (s : Lexer) : ∃ k, skipLineComment s = s.advanceN k :=
  skipLineCommentF_advanceN (s.fuente.length - s.i + 1) s (by omega)

theorem skipBlockCommentF_advanceN :
    ∀ (fuel : Nat) (s : Lexer), s.fuente.length - s.i < fuel →
      ∃ k, (skipBlockCommentF fuel s).2 = s.advanceN k := by
  intro fuel
  induction fuel with
  | zero => intro s h; omega
  | succ fuel ih =>
    intro s h
    rw [skipBlockCommentF]
    split
    · exact ⟨0, rfl⟩
    · split
      · exact ⟨2, rfl⟩
      · rename_i hnul _
        have hlt := peek_lt_of_ne_nul hnul
        obtain ⟨k, hk⟩ := ih s.adv (by rw [Lexer.adv_fuente, Lexer.adv_i]; omega)
        exact ⟨k + 1, by rw [advanceN_succ]; exact hk⟩

theorem skipBlockComment_advanceN (s : Lexer) : ∃ k, (skipBlockComment s).2 = s.advanceN k :=
  skipBlockCommentF_advanceN (s.fuente.length - s.i + 1) s (by omega)

theorem skipBlockCommentF_error :
    ∀ (fuel : Nat) (s : Lexer) (e : LexerError) (s' : Lexer),
      s.fuente.length - s.i < fuel →
      skipBlockCommentF fuel s = (.error e, s') →
      e.msg = "Comentario bloque sin cerrar" ∧ e.linea = s'.linea ∧ e.columna = s'.columna ∧
        s'.peek 0 = nulChar := by
  intro fuel
  induction fuel with
  | zero => intro s e s' h; omega
  | succ fuel ih =>
    intro s e s' h heq
    rw [skipBlockCommentF] at heq
    split at heq
    · rename_i hnul
      injection heq with h1 h2
      injection h1 with h1
      subst h2
      rw [← h1]
      exact ⟨rfl, rfl, rfl, hnul⟩
    · split at heq
      · injection heq with h1 h2
        exact absurd h1 (by simp)
      · rename_i hnul _
        have hlt := peek_lt_of_ne_nul hnul
        exact ih s.adv e s' (by rw [Lexer.adv_fuente, Lexer.adv_i]; omega) heq

theorem skipBlockComment_error {s s' : Lexer} {e : LexerError}
    (heq : skipBlockComment s = (.error e, s')) :
    e.msg = "Comentario bloque sin cerrar" ∧ e.linea = s'.linea ∧ e.columna = s'.columna ∧
      s'.peek 0 = nulChar :=
  skipBlockCommentF_error (s.fuente.length - s.i + 1) s e s' (by omega) heq

theorem skipWhitespaceF_advanceN :
    ∀ (fuel : Nat) (s : Lexer), s.fuente.length - s.i < fuel →
      ∃ k, (skipWhitespaceF fuel s).2 = s.advanceN k := by
  intro fuel
  induction fuel with
  | zero => intro s h; omega
  | succ fuel ih =>
    intro s h
    rw [skipWhitespaceF]
    split
    · rename_i hc
      have hne : s.peek 0 ≠ nulChar := by
        rcases hc with h' | h' | h' | h' <;> rw [h'] <;> decide
      have hlt := peek_lt_of_ne_nul hne
      obtain ⟨k, hk⟩ := ih s.adv (by rw [Lexer.adv_fuente, Lexer.adv_i]; omega)
      exact ⟨k + 1, by rw [advanceN_succ]; exact hk⟩
    · split
      · rename_i hc
        have hne : s.peek 0 ≠ nulChar := by rw [hc.1]; decide
        have hlt := peek_lt_of_ne_nul hne
        obtain ⟨k1, hk1⟩ := skipLineComment_progress (by rw [hc.1]; decide) hne
        obtain ⟨k2, hk2⟩ := ih (skipLineComment s)
          (by rw [hk1, advanceN_fuente, advanceN_i]; omega)
        refine ⟨k1 + 1 + k2, ?_⟩
        rw [hk2, hk1, advanceN_add]
      · split
        · rename_i hc
          have hne : s.peek 0 ≠ nulChar := by rw [hc.1]; decide
          have hlt := peek_lt_of_ne_nul hne
          obtain ⟨kb, hkb⟩ := skipBlockComment_advanceN s.adv.adv
          have hsf : s.adv.adv = s.advanceN 2 := rfl
          rcases hbc : skipBlockComment s.adv.adv with ⟨res, sb⟩
          have hsb : sb = s.advanceN (2 + kb) := by
            rw [hbc] at hkb
            simp only at hkb
            rw [hsf, advanceN_add] at hkb
            exact hkb
          cases res with
          | error e => exact ⟨2 + kb, hsb⟩
          | ok u =>
            obtain ⟨k2, hk2⟩ := ih sb (by rw [hsb, advanceN_fuente, advanceN_i]; omega)
            refine ⟨2 + kb + k2, ?_⟩
            show (skipWhitespaceF fuel sb).2 = s.advanceN (2 + kb + k2)
            rw [hk2, hsb, advanceN_add]
        · exact ⟨0, rfl⟩

theorem skipWhitespace_advanceN (s : Lexer) : ∃ k, (skipWhitespace s).2 = s.advanceN k :=
  skipWhitespaceF_advanceN (s.fuente.length - s.i + 1) s (by omega)

/-! ### Digit runs and the ident/digit loops -/

theorem digit_lt_of_getD {f : List Char} {i : Nat}
    (h : pyIsDigit (f.getD i nulChar) = true) : i < f.length := by
  by_contra hn
  rw [List.getD_eq_default _ _ (by omega)] at h
  exact absurd h (by decide)

theorem digitRun_pos {f : List Char} {i : Nat} (h : pyIsDigit (f.getD i nulChar) = true) :
    digitRun f i = digitRun f (i + 1) + 1 := by
  have hlt := digit_lt_of_getD h
  rw [List.getD_eq_getElem _ _ hlt] at h
  unfold digitRun
  rw [List.drop_eq_getElem_cons hlt, List.takeWhile_cons, if_pos h]
  simp

theorem digitRun_zero {f : List Char} {i : Nat} (h : pyIsDigit (f.getD i nulChar) = false) :
    digitRun f i = 0 := by
  by_cases hlt : i < f.length
  · rw [List.getD_eq_getElem _ _ hlt] at h
    unfold digitRun
    rw [List.drop_eq_getElem_cons hlt, List.takeWhile_cons, if_neg (by simp [h])]
    rfl
  · unfold digitRun
    rw [List.drop_eq_nil_of_le (by omega)]
    rfl

theorem digitRun_maximal :
    ∀ (n : Nat) (f : List Char) (i : Nat), f.length - i ≤ n →
      (∀ j, j < digitRun f i → pyIsDigit (f.getD (i + j) nulChar) = true) ∧
        pyIsDigit (f.getD (i + digitRun f i) nulChar) = false := by
  intro n
  induction n with
  | zero =>
    intro f i h
    have h0 : digitRun f i = 0 := by
      unfold digitRun
      rw [List.drop_eq_nil_of_le (by omega)]
      rfl
    rw [h0]
    refine ⟨fun j hj => by omega, ?_⟩
    rw [Nat.add_zero, List.getD_eq_default _ _ (by omega)]
    decide
  | succ n ih =>
    intro f i h
    by_cases hd : pyIsDigit (f.getD i nulChar) = true
    · have hlt := digit_lt_of_getD hd
      have hrec := ih f (i + 1) (by omega)
      rw [digitRun_pos hd]
      constructor
      · intro j hj
        cases j with
        | zero => simpa using hd
        | succ j =>
          have := hrec.1 j (by omega)
          rw [show i + (j + 1) = i + 1 + j by omega]
          exact this
      · rw [show i + (digitRun f (i + 1) + 1) = i + 1 + digitRun f (i + 1) by omega]
        exact hrec.2
    · rw [digitRun_zero (by simpa using hd)]
      refine ⟨fun j hj => by omega, ?_⟩
      rw [Nat.add_zero]
      simpa using hd

theorem scanDigitsF_spec :
    ∀ (fuel : Nat) (s : Lexer), s.fuente.length - s.i < fuel →
      scanDigitsF fuel s = s.advanceN (digitRun s.fuente s.i) := by
  intro fuel
  induction fuel with
  | zero => intro s h; omega
  | succ fuel ih =>
    intro s h
    rw [scanDigitsF]
    split
    · rename_i hd
      rw [peek_zero] at hd
      have hlt := digit_lt_of_getD hd
      rw [digitRun_pos hd, advanceN_succ]
      have := ih s.adv (by rw [Lexer.adv_fuente, Lexer.adv_i]; omega)
      rw [this, Lexer.adv_fuente, Lexer.adv_i]
    · rename_i hd
      rw [peek_zero] at hd
      rw [digitRun_zero (by simpa using hd)]
      rfl

theorem scanDigits_spec (s : Lexer) : scanDigits s = s.advanceN (digitRun s.fuente s.i) :=
  scanDigitsF_spec (s.fuente.length - s.i + 1) s (by omega)

theorem scanIdentLoopF_advanceN :
    ∀ (fuel : Nat) (s : Lexer), s.fuente.length - s.i < fuel →
      ∃ k, scanIdentLoopF fuel s = s.advanceN k := by
  intro fuel
  induction fuel with
  | zero => intro s h; omega
  | succ fuel ih =>
    intro s h
    rw [scanIdentLoopF]
    split
    · rename_i hc
      have hne : s.peek 0 ≠ nulChar := by
        intro hnul
        rw [hnul] at hc
        exact absurd hc (by decide)
      have hlt := peek_lt_of_ne_nul hne
      obtain ⟨k, hk⟩ := ih s.adv (by rw [Lexer.adv_fuente, Lexer.adv_i]; omega)
      exact ⟨k + 1, by rw [advanceN_succ]; exact hk⟩
    · exact ⟨0, rfl⟩

theorem scanIdentLoop_advanceN (s : Lexer) : ∃ k, scanIdentLoop s = s.advanceN k :=
  scanIdentLoopF_advanceN (s.fuente.length - s.i + 1) s (by omega)

/-! ### String scan lemmas -/

theorem scanStringLoopF_advanceN :
    ∀ (fuel sl sc st : Nat) (s : Lexer), s.fuente.length - s.i < fuel →
      ∃ k, (scanStringLoopF fuel sl sc st s).2 = s.advanceN k := by
  intro fuel
  induction fuel with
  | zero => intro sl sc st s h; omega
  | succ fuel ih =>
    intro sl sc st s h
    rw [scanStringLoopF]
    split
    · exact ⟨0, rfl⟩
    · split
      · exact ⟨0, rfl⟩
      · split
        · exact ⟨1, rfl⟩
        · split
          · rename_i hnul _ _ hbs
            split
            · rename_i hnul2
              have hlt := peek_lt_of_ne_nul hnul
              have hlt2 : s.adv.i < s.adv.fuente.length := peek_lt_of_ne_nul hnul2
              rw [Lexer.adv_fuente, Lexer.adv_i] at hlt2
              obtain ⟨k, hk⟩ := ih sl sc st s.adv.adv
                (by rw [Lexer.adv_fuente, Lexer.adv_fuente, Lexer.adv_i, Lexer.adv_i]; omega)
              refine ⟨k + 2, ?_⟩
              rw [show s.advanceN (k + 2) = s.adv.adv.advanceN k by
                rw [show k + 2 = 2 + k by omega, ← advanceN_add]; rfl]
              exact hk
            · have hlt := peek_lt_of_ne_nul hnul
              obtain ⟨k, hk⟩ := ih sl sc st s.adv
                (by rw [Lexer.adv_fuente, Lexer.adv_i]; omega)
              exact ⟨k + 1, by rw [advanceN_succ]; exact hk⟩
          · rename_i hnul _ _ _
            have hlt := peek_lt_of_ne_nul hnul
            obtain ⟨k, hk⟩ := ih sl sc st s.adv
              (by rw [Lexer.adv_fuente, Lexer.adv_i]; omega)
            exact ⟨k + 1, by rw [advanceN_succ]; exact hk⟩

theorem scanStringLoopF_ok :
    ∀ (fuel sl sc st : Nat) (s : Lexer) (t : Token) (s' : Lexer),
      s.fuente.length - s.i < fuel →
      scanStringLoopF fuel sl sc st s = (.ok t, s') →
      t.tipo = TOKEN "cadena" ∧ t.linea = sl ∧ t.columna = sc ∧
        t.lexema = pySlice s.fuente st (s'.i - 1) ∧
        s.fuente.getD (s'.i - 1) nulChar = '"' ∧
        s.i ≤ s'.i - 1 ∧ s'.fuente = s.fuente := by
  intro fuel
  induction fuel with
  | zero => intro sl sc st s t s' h; omega
  | succ fuel ih =>
    intro sl sc st s t s' h heq
    rw [scanStringLoopF] at heq
    split at heq
    · simp at heq
    · split at heq
      · simp at heq
      · split at heq
        · rename_i hnul hnl hq
          simp only [Prod.mk.injEq, Except.ok.injEq] at heq
          obtain ⟨ht, hs⟩ := heq
          subst ht
          subst hs
          rw [peek_zero] at hq
          refine ⟨rfl, rfl, rfl, ?_, ?_, ?_, s.adv_fuente⟩
          · simp [Lexer.adv_i]
          · rw [Lexer.adv_i]
            simpa using hq
          · rw [Lexer.adv_i]
            omega
        · split at heq
          · split at heq
            · rename_i hnul _ _ _ hnul2
              have hlt := peek_lt_of_ne_nul hnul
              have hlt2 : s.adv.i < s.adv.fuente.length := peek_lt_of_ne_nul hnul2
              rw [Lexer.adv_fuente, Lexer.adv_i] at hlt2
              have hrec := ih sl sc st s.adv.adv t s'
                (by rw [Lexer.adv_fuente, Lexer.adv_fuente, Lexer.adv_i, Lexer.adv_i]; omega) heq
              rw [Lexer.adv_fuente, Lexer.adv_fuente, Lexer.adv_i, Lexer.adv_i] at hrec
              exact ⟨hrec.1, hrec.2.1, hrec.2.2.1, hrec.2.2.2.1, hrec.2.2.2.2.1,
                by omega, hrec.2.2.2.2.2.2⟩
            · rename_i hnul _ _ _ _
              have hlt := peek_lt_of_ne_nul hnul
              have hrec := ih sl sc st s.adv t s'
                (by rw [Lexer.adv_fuente, Lexer.adv_i]; omega) heq
              rw [Lexer.adv_fuente, Lexer.adv_i] at hrec
              exact ⟨hrec.1, hrec.2.1, hrec.2.2.1, hrec.2.2.2.1, hrec.2.2.2.2.1,
                by omega, hrec.2.2.2.2.2.2⟩
          · rename_i hnul _ _ _
            have hlt := peek_lt_of_ne_nul hnul
            have hrec := ih sl sc st s.adv t s'
              (by rw [Lexer.adv_fuente, Lexer.adv_i]; omega) heq
            rw [Lexer.adv_fuente, Lexer.adv_i] at hrec
            exact ⟨hrec.1, hrec.2.1, hrec.2.2.1, hrec.2.2.2.1, hrec.2.2.2.2.1,
              by omega, hrec.2.2.2.2.2.2⟩

theorem scanStringLoopF_err :
    ∀ (fuel sl sc st : Nat) (s : Lexer) (e : LexerError) (s' : Lexer),
      s.fuente.length - s.i < fuel →
      scanStringLoopF fuel sl sc st s = (.error e, s') →
      e.msg = "Cadena sin cerrar" →
      e.linea = sl ∧ e.columna = sc := by
  intro fuel
  induction fuel with
  | zero => intro sl sc st s e s' h; omega
  | succ fuel ih =>
    intro sl sc st s e s' h heq hmsg
    rw [scanStringLoopF] at heq
    split at heq
    · simp only [Prod.mk.injEq, Except.error.injEq] at heq
      rw [← heq.1]
      exact ⟨rfl, rfl⟩
    · split at heq
      · simp only [Prod.mk.injEq, Except.error.injEq] at heq
        rw [← heq.1] at hmsg
        exact absurd hmsg (by simp)
      · split at heq
        · simp at heq
        · split at heq
          · split at heq
            · rename_i hnul _ _ _ hnul2
              have hlt := peek_lt_of_ne_nul hnul
              have hlt2 : s.adv.i < s.adv.fuente.length := peek_lt_of_ne_nul hnul2
              rw [Lexer.adv_fuente, Lexer.adv_i] at hlt2
              exact ih sl sc st s.adv.adv e s'
                (by rw [Lexer.adv_fuente, Lexer.adv_fuente, Lexer.adv_i, Lexer.adv_i]; omega)
                heq hmsg
            · rename_i hnul _ _ _ _
              have hlt := peek_lt_of_ne_nul hnul
              exact ih sl sc st s.adv e s'
                (by rw [Lexer.adv_fuente, Lexer.adv_i]; omega) heq hmsg
          · rename_i hnul _ _ _
            have hlt := peek_lt_of_ne_nul hnul
            exact ih sl sc st s.adv e s'
              (by rw [Lexer.adv_fuente, Lexer.adv_i]; omega) heq hmsg

theorem scanString_eq (s : Lexer) :
    scanString s =
      scanStringLoopF (s.adv.fuente.length - s.adv.i + 1) s.linea s.columna s.adv.i s.adv := rfl

theorem scanString_advanceN (s : Lexer) : ∃ k, (scanString s).2 = s.advanceN (k + 1) := by
  rw [scanString_eq]
  obtain ⟨k, hk⟩ := scanStringLoopF_advanceN (s.adv.fuente.length - s.adv.i + 1)
    s.linea s.columna s.adv.i s.adv (by omega)
  exact ⟨k, by rw [advanceN_succ]; exact hk⟩

theorem scanString_err {s : Lexer} {e : LexerError} {s' : Lexer}
    (heq : scanString s = (.error e, s')) (hmsg : e.msg = "Cadena sin cerrar") :
    e.linea = s.linea ∧ e.columna = s.columna := by
  rw [scanString_eq] at heq
  exact scanStringLoopF_err _ _ _ _ s.adv e s' (by omega) heq hmsg

theorem scanString_ok {s : Lexer} {t : Token} {s' : Lexer}
    (hq : s.peek 0 = '"') (heq : scanString s = (.ok t, s')) :
    t.tipo = TOKEN "cadena" ∧ t.linea = s.linea ∧ t.columna = s.columna ∧
      t.lexema = pySlice s.fuente (s.i + 1) (s'.i - 1) ∧
      s.fuente.getD (s'.i - 1) nulChar = '"' ∧
      s.i + 1 ≤ s'.i - 1 ∧ s'.fuente = s.fuente ∧ s.i + 1 < s'.i ∧
      pySlice s.fuente s.i s'.i = '"' :: (t.lexema ++ ['"']) := by
  rw [scanString_eq] at heq
  have hrec := scanStringLoopF_ok _ _ _ _ s.adv t s' (by omega) heq
  rw [Lexer.adv_fuente, Lexer.adv_i] at hrec
  obtain ⟨h1, h2, h3, h4, h5, h6, h7⟩ := hrec
  have hqlt : s.i < s.fuente.length := peek_lt_of_ne_nul (by rw [hq]; decide)
  have hclose_lt : s'.i - 1 < s.fuente.length := by
    by_contra hn
    rw [List.getD_eq_default _ _ (by omega)] at h5
    exact absurd h5 (by decide)
  have hgq : s.fuente.getD s.i nulChar = '"' := by
    rw [peek_zero] at hq
    exact hq
  refine ⟨h1, h2, h3, h4, h5, h6, h7, by omega, ?_⟩
  rw [show s'.i = (s'.i - 1) + 1 by omega,
    pySlice_snoc (by omega) hclose_lt,
    pySlice_cons (by omega) hqlt, hgq, h5, h4]
  simp

/-! ### Identifier and number scan lemmas -/

theorem advanceN_adv_comm (s : Lexer) (k : Nat) : (s.advanceN k).adv = s.adv.advanceN k := by
  induction k generalizing s with
  | zero => rfl
  | succ k ih =>
    show (s.adv.advanceN k).adv = s.adv.adv.advanceN k
    exact ih s.adv

theorem RESERVED_SINGLE_codes {l : List Char} {c : Nat} (h : RESERVED_SINGLE l = some c) :
    c = TOKEN "if" ∨ c = TOKEN "while" ∨ c = TOKEN "return" ∨ c = TOKEN "else" := by
  unfold RESERVED_SINGLE at h
  split_ifs at h
  · exact Or.inl (Option.some.inj h).symm
  · exact Or.inr (Or.inl (Option.some.inj h).symm)
  · exact Or.inr (Or.inr (Or.inl (Option.some.inj h).symm))
  · exact Or.inr (Or.inr (Or.inr (Option.some.inj h).symm))

theorem scanIdentOrReserved_spec {s : Lexer} (h : isLetter (s.peek 0) = true) :
    ∃ t s', scanIdentOrReserved s = (.ok t, s') ∧
      t.lexema = pySlice s.fuente s.i s'.i ∧ t.linea = s.linea ∧ t.columna = s.columna ∧
      t.tipo ≠ TOKEN "cadena" ∧ t.tipo ≠ TOKEN "$" ∧
      ∃ k, s' = s.advanceN (k + 1) := by
  obtain ⟨k, hk⟩ := scanIdentLoop_advanceN s.adv
  have hk' : scanIdentLoop s.adv = s.advanceN (k + 1) := by rw [advanceN_succ]; exact hk
  have hbody : scanIdentOrReserved s =
      (match RESERVED_SINGLE (pySlice s.fuente s.i (scanIdentLoop s.adv).i) with
        | some code =>
          (Except.ok ⟨code, pySlice s.fuente s.i (scanIdentLoop s.adv).i, s.linea, s.columna⟩,
            scanIdentLoop s.adv)
        | none =>
          if RESERVED_TYPES (pySlice s.fuente s.i (scanIdentLoop s.adv).i) then
            (Except.ok ⟨TOKEN "tipo", pySlice s.fuente s.i (scanIdentLoop s.adv).i,
              s.linea, s.columna⟩, scanIdentLoop s.adv)
          else
            (Except.ok ⟨TOKEN "identificador", pySlice s.fuente s.i (scanIdentLoop s.adv).i,
              s.linea, s.columna⟩, scanIdentLoop s.adv)) := by
    unfold scanIdentOrReserved
    rw [if_neg (by simp [h])]
  rcases hres : RESERVED_SINGLE (pySlice s.fuente s.i (scanIdentLoop s.adv).i) with _ | code
  · rw [hres] at hbody
    by_cases hty : RESERVED_TYPES (pySlice s.fuente s.i (scanIdentLoop s.adv).i) = true
    · rw [if_pos hty] at hbody
      refine ⟨_, _, hbody, rfl, rfl, rfl, ?_, ?_, k, hk'⟩
      · show TOKEN "tipo" ≠ TOKEN "cadena"
        decide
      · show TOKEN "tipo" ≠ TOKEN "$"
        decide
    · rw [if_neg hty] at hbody
      refine ⟨_, _, hbody, rfl, rfl, rfl, ?_, ?_, k, hk'⟩
      · show TOKEN "identificador" ≠ TOKEN "cadena"
        decide
      · show TOKEN "identificador" ≠ TOKEN "$"
        decide
  · rw [hres] at hbody
    have hcodes := RESERVED_SINGLE_codes hres
    refine ⟨_, _, hbody, rfl, rfl, rfl, ?_, ?_, k, hk'⟩
    · show code ≠ TOKEN "cadena"
      rcases hcodes with h' | h' | h' | h' <;> rw [h'] <;> decide
    · show code ≠ TOKEN "$"
      rcases hcodes with h' | h' | h' | h' <;> rw [h'] <;> decide

theorem scanIdentOrReserved_err_state {s : Lexer} {e : LexerError} {s' : Lexer}
    (heq : scanIdentOrReserved s = (.error e, s')) : s' = s := by
  by_cases h : isLetter (s.peek 0) = true
  · obtain ⟨t, s'', heq', _⟩ := scanIdentOrReserved_spec h
    rw [heq'] at heq
    simp at heq
  · unfold scanIdentOrReserved at heq
    rw [if_pos (by simp [h])] at heq
    simp only [Prod.mk.injEq] at heq
    exact heq.2.symm

theorem scanNumber_spec (s : Lexer) :
    ((s.peek (digitRun s.fuente s.i) = '.' ∧
        pyIsDigit (s.peek (digitRun s.fuente s.i + 1)) = true) →
      scanNumber s =
        (.ok ⟨TOKEN "real",
          pySlice s.fuente s.i
            (s.i + digitRun s.fuente s.i + 1 +
              digitRun s.fuente (s.i + digitRun s.fuente s.i + 1)),
          s.linea, s.columna⟩,
          s.advanceN (digitRun s.fuente s.i + 1 +
            digitRun s.fuente (s.i + digitRun s.fuente s.i + 1)))) ∧
    (¬(s.peek (digitRun s.fuente s.i) = '.' ∧
        pyIsDigit (s.peek (digitRun s.fuente s.i + 1)) = true) →
      scanNumber s =
        (.ok ⟨TOKEN "entero", pySlice s.fuente s.i (s.i + digitRun s.fuente s.i),
          s.linea, s.columna⟩,
          s.advanceN (digitRun s.fuente s.i))) := by
  have h1 : scanDigits s = s.advanceN (digitRun s.fuente s.i) := scanDigits_spec s
  have hp0 : (scanDigits s).peek 0 = s.peek (digitRun s.fuente s.i) := by
    rw [h1, peek_advanceN, Nat.add_zero]
  have hp1 : (scanDigits s).peek 1 = s.peek (digitRun s.fuente s.i + 1) := by
    rw [h1, peek_advanceN]
  have hadv : (scanDigits s).adv = s.advanceN (digitRun s.fuente s.i + 1) := by
    rw [h1, advanceN_succ]
    exact advanceN_adv_comm s _
  constructor
  · intro hg
    simp only [scanNumber]
    rw [if_pos (by rw [hp0, hp1]; exact hg)]
    have hpd : pyIsDigit ((scanDigits s).adv.peek 0) = true := by
      rw [hadv, peek_advanceN, Nat.add_zero]
      exact hg.2
    rw [if_neg (by simp [hpd])]
    have h2 : scanDigits (scanDigits s).adv =
        s.advanceN (digitRun s.fuente s.i + 1 +
          digitRun s.fuente (s.i + digitRun s.fuente s.i + 1)) := by
      rw [scanDigits_spec ((scanDigits s).adv), hadv, advanceN_fuente, advanceN_i,
        advanceN_add, ← Nat.add_assoc]
    rw [h2]
    simp [advanceN_i, Nat.add_assoc]
  · intro hg
    simp only [scanNumber]
    rw [if_neg (by rw [hp0, hp1]; exact hg)]
    rw [h1]
    simp [advanceN_i]

theorem scanNumber_ok (s : Lexer) : ∃ t s', scanNumber s = (.ok t, s') := by
  by_cases hg : s.peek (digitRun s.fuente s.i) = '.' ∧
      pyIsDigit (s.peek (digitRun s.fuente s.i + 1)) = true
  · exact ⟨_, _, (scanNumber_spec s).1 hg⟩
  · exact ⟨_, _, (scanNumber_spec s).2 hg⟩

theorem scanNumber_advanceN (s : Lexer) : ∃ k, (scanNumber s).2 = s.advanceN k := by
  by_cases hg : s.peek (digitRun s.fuente s.i) = '.' ∧
      pyIsDigit (s.peek (digitRun s.fuente s.i + 1)) = true
  · exact ⟨_, by rw [(scanNumber_spec s).1 hg]⟩
  · exact ⟨_, by rw [(scanNumber_spec s).2 hg]⟩

/-! ### Dispatch lemmas for `scanOne` -/

theorem payload_of_ne {t : Token} (h1 : t.tipo ≠ TOKEN "cadena") (h2 : t.tipo ≠ TOKEN "$") :
    payload t = t.lexema := by
  unfold payload
  rw [if_neg h1, if_neg h2]

theorem payload_cadena {t : Token} (h : t.tipo = TOKEN "cadena") :
    payload t = '"' :: (t.lexema ++ ['"']) := by
  unfold payload
  rw [if_pos h]

theorem pySlice_two {f : List Char} {a : Nat} (h0 : a < f.length) (h1 : a + 1 < f.length) :
    pySlice f a (a + 1 + 1) = [f.getD a nulChar, f.getD (a + 1) nulChar] := by
  rw [pySlice_snoc (by omega) h1, pySlice_one h0]
  rfl

theorem scanString_advanceN' (s : Lexer) : ∃ k, (scanString s).2 = s.advanceN k := by
  obtain ⟨k, hk⟩ := scanString_advanceN s
  exact ⟨k + 1, hk⟩

theorem scanIdentOrReserved_advanceN (s : Lexer) :
    ∃ k, (scanIdentOrReserved s).2 = s.advanceN k := by
  by_cases h : isLetter (s.peek 0) = true
  · obtain ⟨t0, s0, heq, _, _, _, _, _, k0, hs0⟩ := scanIdentOrReserved_spec h
    exact ⟨k0 + 1, by rw [heq]; exact hs0⟩
  · unfold scanIdentOrReserved
    rw [if_pos (by simp [h])]
    exact ⟨0, rfl⟩

theorem scanSingleChar_spec (s : Lexer) :
    (scanSingleChar s).2 = (s.advance).2 ∧
    ∀ t s', scanSingleChar s = (.ok t, s') →
      t.tipo ≠ TOKEN "$" ∧ t.linea = s.linea ∧ t.columna = s.columna ∧
        payload t = pySlice s.fuente s.i s'.i ∧ ∃ k, s' = s.advanceN (k + 1) := by
  unfold scanSingleChar
  dsimp only
  by_cases h : (s.advance).1 = '+' ∨ (s.advance).1 = '-'
  · rw [if_pos h]
    refine ⟨rfl, ?_⟩
    intro t s' hOk
    simp only [Prod.mk.injEq, Except.ok.injEq] at hOk
    obtain ⟨rfl, rfl⟩ := hOk
    have hlt : s.i < s.fuente.length := by
      rcases h with h' | h'
      · exact peek_lt_of_ne_nul (by rw [← Lexer.advance_fst, h']; decide)
      · exact peek_lt_of_ne_nul (by rw [← Lexer.advance_fst, h']; decide)
    refine ⟨(by decide : TOKEN "opSuma" ≠ TOKEN "$"), rfl, rfl, ?_, 0, rfl⟩
    rw [payload_of_ne (by decide : TOKEN "opSuma" ≠ TOKEN "cadena")
      (by decide : TOKEN "opSuma" ≠ TOKEN "$")]
    show [(s.advance).1] = _
    rw [Lexer.advance_fst, Lexer.advance_snd, Lexer.adv_i, pySlice_one hlt, ← peek_zero]
  · rw [if_neg h]
    clear h
    by_cases h : (s.advance).1 = '*' ∨ (s.advance).1 = '/'
    · rw [if_pos h]
      refine ⟨rfl, ?_⟩
      intro t s' hOk
      simp only [Prod.mk.injEq, Except.ok.injEq] at hOk
      obtain ⟨rfl, rfl⟩ := hOk
      have hlt : s.i < s.fuente.length := by
        rcases h with h' | h'
        · exact peek_lt_of_ne_nul (by rw [← Lexer.advance_fst, h']; decide)
        · exact peek_lt_of_ne_nul (by rw [← Lexer.advance_fst, h']; decide)
      refine ⟨(by decide : TOKEN "opMul" ≠ TOKEN "$"), rfl, rfl, ?_, 0, rfl⟩
      rw [payload_of_ne (by decide : TOKEN "opMul" ≠ TOKEN "cadena")
        (by decide : TOKEN "opMul" ≠ TOKEN "$")]
      show [(s.advance).1] = _
      rw [Lexer.advance_fst, Lexer.advance_snd, Lexer.adv_i, pySlice_one hlt, ← peek_zero]
    · rw [if_neg h]
      clear h
      by_cases h : (s.advance).1 = '<' ∨ (s.advance).1 = '>'
      · rw [if_pos h]
        refine ⟨rfl, ?_⟩
        intro t s' hOk
        simp only [Prod.mk.injEq, Except.ok.injEq] at hOk
        obtain ⟨rfl, rfl⟩ := hOk
        have hlt : s.i < s.fuente.length := by
          rcases h with h' | h'
          · exact peek_lt_of_ne_nul (by rw [← Lexer.advance_fst, h']; decide)
          · exact peek_lt_of_ne_nul (by rw [← Lexer.advance_fst, h']; decide)
        refine ⟨(by decide : TOKEN "opRelac" ≠ TOKEN "$"), rfl, rfl, ?_, 0, rfl⟩
        rw [payload_of_ne (by decide : TOKEN "opRelac" ≠ TOKEN "cadena")
          (by decide : TOKEN "opRelac" ≠ TOKEN "$")]
        show [(s.advance).1] = _
        rw [Lexer.advance_fst, Lexer.advance_snd, Lexer.adv_i, pySlice_one hlt, ← peek_zero]
      · rw [if_neg h]
        clear h
        by_cases h : (s.advance).1 = '!'
        · rw [if_pos h]
          refine ⟨rfl, ?_⟩
          intro t s' hOk
          simp only [Prod.mk.injEq, Except.ok.injEq] at hOk
          obtain ⟨rfl, rfl⟩ := hOk
          have hlt : s.i < s.fuente.length :=
            peek_lt_of_ne_nul (by rw [← Lexer.advance_fst, h]; decide)
          refine ⟨(by decide : TOKEN "opNot" ≠ TOKEN "$"), rfl, rfl, ?_, 0, rfl⟩
          rw [payload_of_ne (by decide : TOKEN "opNot" ≠ TOKEN "cadena")
            (by decide : TOKEN "opNot" ≠ TOKEN "$")]
          show [(s.advance).1] = _
          rw [Lexer.advance_fst, Lexer.advance_snd, Lexer.adv_i, pySlice_one hlt, ← peek_zero]
        · rw [if_neg h]
          clear h
          by_cases h : (s.advance).1 = '='
          · rw [if_pos h]
            refine ⟨rfl, ?_⟩
            intro t s' hOk
            simp only [Prod.mk.injEq, Except.ok.injEq] at hOk
            obtain ⟨rfl, rfl⟩ := hOk
            have hlt : s.i < s.fuente.length :=
              peek_lt_of_ne_nul (by rw [← Lexer.advance_fst, h]; decide)
            refine ⟨(by decide : TOKEN "=" ≠ TOKEN "$"), rfl, rfl, ?_, 0, rfl⟩
            rw [payload_of_ne (by decide : TOKEN "=" ≠ TOKEN "cadena")
              (by decide : TOKEN "=" ≠ TOKEN "$")]
            show [(s.advance).1] = _
            rw [Lexer.advance_fst, Lexer.advance_snd, Lexer.adv_i, pySlice_one hlt, ← peek_zero]
          · rw [if_neg h]
            clear h
            by_cases h : (s.advance).1 = ';'
            · rw [if_pos h]
              refine ⟨rfl, ?_⟩
              intro t s' hOk
              simp only [Prod.mk.injEq, Except.ok.injEq] at hOk
              obtain ⟨rfl, rfl⟩ := hOk
              have hlt : s.i < s.fuente.length :=
                peek_lt_of_ne_nul (by rw [← Lexer.advance_fst, h]; decide)
              refine ⟨(by decide : TOKEN ";" ≠ TOKEN "$"), rfl, rfl, ?_, 0, rfl⟩
              rw [payload_of_ne (by decide : TOKEN ";" ≠ TOKEN "cadena")
                (by decide : TOKEN ";" ≠ TOKEN "$")]
              show [(s.advance).1] = _
              rw [Lexer.advance_fst, Lexer.advance_snd, Lexer.adv_i, pySlice_one hlt, ← peek_zero]
            · rw [if_neg h]
              clear h
              by_cases h : (s.advance).1 = ','
              · rw [if_pos h]
                refine ⟨rfl, ?_⟩
                intro t s' hOk
                simp only [Prod.mk.injEq, Except.ok.injEq] at hOk
                obtain ⟨rfl, rfl⟩ := hOk
                have hlt : s.i < s.fuente.length :=
                  peek_lt_of_ne_nul (by rw [← Lexer.advance_fst, h]; decide)
                refine ⟨(by decide : TOKEN "," ≠ TOKEN "$"), rfl, rfl, ?_, 0, rfl⟩
                rw [payload_of_ne (by decide : TOKEN "," ≠ TOKEN "cadena")
                  (by decide : TOKEN "," ≠ TOKEN "$")]
                show [(s.advance).1] = _
                rw [Lexer.advance_fst, Lexer.advance_snd, Lexer.adv_i, pySlice_one hlt, ← peek_zero]
              · rw [if_neg h]
                clear h
                by_cases h : (s.advance).1 = '('
                · rw [if_pos h]
                  refine ⟨rfl, ?_⟩
                  intro t s' hOk
                  simp only [Prod.mk.injEq, Except.ok.injEq] at hOk
                  obtain ⟨rfl, rfl⟩ := hOk
                  have hlt : s.i < s.fuente.length :=
                    peek_lt_of_ne_nul (by rw [← Lexer.advance_fst, h]; decide)
                  refine ⟨(by decide : TOKEN "(" ≠ TOKEN "$"), rfl, rfl, ?_, 0, rfl⟩
                  rw [payload_of_ne (by decide : TOKEN "(" ≠ TOKEN "cadena")
                    (by decide : TOKEN "(" ≠ TOKEN "$")]
                  show [(s.advance).1] = _
                  rw [Lexer.advance_fst, Lexer.advance_snd, Lexer.adv_i, pySlice_one hlt, ← peek_zero]
                · rw [if_neg h]
                  clear h
                  by_cases h : (s.advance).1 = ')'
                  · rw [if_pos h]
                    refine ⟨rfl, ?_⟩
                    intro t s' hOk
                    simp only [Prod.mk.injEq, Except.ok.injEq] at hOk
                    obtain ⟨rfl, rfl⟩ := hOk
                    have hlt : s.i < s.fuente.length :=
                      peek_lt_of_ne_nul (by rw [← Lexer.advance_fst, h]; decide)
                    refine ⟨(by decide : TOKEN ")" ≠ TOKEN "$"), rfl, rfl, ?_, 0, rfl⟩
                    rw [payload_of_ne (by decide : TOKEN ")" ≠ TOKEN "cadena")
                      (by decide : TOKEN ")" ≠ TOKEN "$")]
                    show [(s.advance).1] = _
                    rw [Lexer.advance_fst, Lexer.advance_snd, Lexer.adv_i, pySlice_one hlt, ← peek_zero]
                  · rw [if_neg h]
                    clear h
                    by_cases h : (s.advance).1 = '\x7b'
                    · rw [if_pos h]
                      refine ⟨rfl, ?_⟩
                      intro t s' hOk
                      simp only [Prod.mk.injEq, Except.ok.injEq] at hOk
                      obtain ⟨rfl, rfl⟩ := hOk
                      have hlt : s.i < s.fuente.length :=
                        peek_lt_of_ne_nul (by rw [← Lexer.advance_fst, h]; decide)
                      refine ⟨(by decide : TOKEN "\x7b" ≠ TOKEN "$"), rfl, rfl, ?_, 0, rfl⟩
                      rw [payload_of_ne (by decide : TOKEN "\x7b" ≠ TOKEN "cadena")
                        (by decide : TOKEN "\x7b" ≠ TOKEN "$")]
                      show [(s.advance).1] = _
                      rw [Lexer.advance_fst, Lexer.advance_snd, Lexer.adv_i, pySlice_one hlt, ← peek_zero]
                    · rw [if_neg h]
                      clear h
                      by_cases h : (s.advance).1 = '\x7d'
                      · rw [if_pos h]
                        refine ⟨rfl, ?_⟩
                        intro t s' hOk
                        simp only [Prod.mk.injEq, Except.ok.injEq] at hOk
                        obtain ⟨rfl, rfl⟩ := hOk
                        have hlt : s.i < s.fuente.length :=
                          peek_lt_of_ne_nul (by rw [← Lexer.advance_fst, h]; decide)
                        refine ⟨(by decide : TOKEN "\x7d" ≠ TOKEN "$"), rfl, rfl, ?_, 0, rfl⟩
                        rw [payload_of_ne (by decide : TOKEN "\x7d" ≠ TOKEN "cadena")
                          (by decide : TOKEN "\x7d" ≠ TOKEN "$")]
                        show [(s.advance).1] = _
                        rw [Lexer.advance_fst, Lexer.advance_snd, Lexer.adv_i, pySlice_one hlt, ← peek_zero]
                      · rw [if_neg h]
                        clear h
                        refine ⟨rfl, ?_⟩
                        intro t s' hOk
                        simp at hOk

theorem scanOpPunct_spec (s : Lexer) :
    (∃ k, (scanOpPunct s).2 = s.advanceN k) ∧
    ∀ t s', scanOpPunct s = (.ok t, s') →
      t.tipo ≠ TOKEN "$" ∧ t.linea = s.linea ∧ t.columna = s.columna ∧
        payload t = pySlice s.fuente s.i s'.i ∧ ∃ k, s' = s.advanceN (k + 1) := by
  unfold scanOpPunct
  by_cases h : s.peek 0 = '=' ∧ s.peek 1 = '='
  · rw [if_pos h]
    refine ⟨⟨2, rfl⟩, ?_⟩
    intro t s' hOk
    simp only [Prod.mk.injEq, Except.ok.injEq] at hOk
    obtain ⟨rfl, rfl⟩ := hOk
    have hlt0 : s.i < s.fuente.length := peek_lt_of_ne_nul (by rw [h.1]; decide)
    have hlt1 : s.i + 1 < s.fuente.length := peek_lt_of_ne_nul' (by rw [h.2]; decide)
    refine ⟨(by decide : TOKEN "opIgualdad" ≠ TOKEN "$"), rfl, rfl, ?_, 1, rfl⟩
    rw [payload_of_ne (by decide : TOKEN "opIgualdad" ≠ TOKEN "cadena")
      (by decide : TOKEN "opIgualdad" ≠ TOKEN "$")]
    show "==".toList = _
    rw [Lexer.adv_i, Lexer.adv_i, pySlice_two hlt0 hlt1, ← peek_zero, ← peek_def, h.1, h.2]
    decide
  · rw [if_neg h]
    clear h
    by_cases h : s.peek 0 = '!' ∧ s.peek 1 = '='
    · rw [if_pos h]
      refine ⟨⟨2, rfl⟩, ?_⟩
      intro t s' hOk
      simp only [Prod.mk.injEq, Except.ok.injEq] at hOk
      obtain ⟨rfl, rfl⟩ := hOk
      have hlt0 : s.i < s.fuente.length := peek_lt_of_ne_nul (by rw [h.1]; decide)
      have hlt1 : s.i + 1 < s.fuente.length := peek_lt_of_ne_nul' (by rw [h.2]; decide)
      refine ⟨(by decide : TOKEN "opIgualdad" ≠ TOKEN "$"), rfl, rfl, ?_, 1, rfl⟩
      rw [payload_of_ne (by decide : TOKEN "opIgualdad" ≠ TOKEN "cadena")
        (by decide : TOKEN "opIgualdad" ≠ TOKEN "$")]
      show "!=".toList = _
      rw [Lexer.adv_i, Lexer.adv_i, pySlice_two hlt0 hlt1, ← peek_zero, ← peek_def, h.1, h.2]
      decide
    · rw [if_neg h]
      clear h
      by_cases h : s.peek 0 = '<' ∧ s.peek 1 = '='
      · rw [if_pos h]
        refine ⟨⟨2, rfl⟩, ?_⟩
        intro t s' hOk
        simp only [Prod.mk.injEq, Except.ok.injEq] at hOk
        obtain ⟨rfl, rfl⟩ := hOk
        have hlt0 : s.i < s.fuente.length := peek_lt_of_ne_nul (by rw [h.1]; decide)
        have hlt1 : s.i + 1 < s.fuente.length := peek_lt_of_ne_nul' (by rw [h.2]; decide)
        refine ⟨(by decide : TOKEN "opRelac" ≠ TOKEN "$"), rfl, rfl, ?_, 1, rfl⟩
        rw [payload_of_ne (by decide : TOKEN "opRelac" ≠ TOKEN "cadena")
          (by decide : TOKEN "opRelac" ≠ TOKEN "$")]
        show "<=".toList = _
        rw [Lexer.adv_i, Lexer.adv_i, pySlice_two hlt0 hlt1, ← peek_zero, ← peek_def, h.1, h.2]
        decide
      · rw [if_neg h]
        clear h
        by_cases h : s.peek 0 = '>' ∧ s.peek 1 = '='
        · rw [if_pos h]
          refine ⟨⟨2, rfl⟩, ?_⟩
          intro t s' hOk
          simp only [Prod.mk.injEq, Except.ok.injEq] at hOk
          obtain ⟨rfl, rfl⟩ := hOk
          have hlt0 : s.i < s.fuente.length := peek_lt_of_ne_nul (by rw [h.1]; decide)
          have hlt1 : s.i + 1 < s.fuente.length := peek_lt_of_ne_nul' (by rw [h.2]; decide)
          refine ⟨(by decide : TOKEN "opRelac" ≠ TOKEN "$"), rfl, rfl, ?_, 1, rfl⟩
          rw [payload_of_ne (by decide : TOKEN "opRelac" ≠ TOKEN "cadena")
            (by decide : TOKEN "opRelac" ≠ TOKEN "$")]
          show ">=".toList = _
          rw [Lexer.adv_i, Lexer.adv_i, pySlice_two hlt0 hlt1, ← peek_zero, ← peek_def, h.1, h.2]
          decide
        · rw [if_neg h]
          clear h
          by_cases h : s.peek 0 = '&' ∧ s.peek 1 = '&'
          · rw [if_pos h]
            refine ⟨⟨2, rfl⟩, ?_⟩
            intro t s' hOk
            simp only [Prod.mk.injEq, Except.ok.injEq] at hOk
            obtain ⟨rfl, rfl⟩ := hOk
            have hlt0 : s.i < s.fuente.length := peek_lt_of_ne_nul (by rw [h.1]; decide)
            have hlt1 : s.i + 1 < s.fuente.length := peek_lt_of_ne_nul' (by rw [h.2]; decide)
            refine ⟨(by decide : TOKEN "opAnd" ≠ TOKEN "$"), rfl, rfl, ?_, 1, rfl⟩
            rw [payload_of_ne (by decide : TOKEN "opAnd" ≠ TOKEN "cadena")
              (by decide : TOKEN "opAnd" ≠ TOKEN "$")]
            show "&&".toList = _
            rw [Lexer.adv_i, Lexer.adv_i, pySlice_two hlt0 hlt1, ← peek_zero, ← peek_def, h.1, h.2]
            decide
          · rw [if_neg h]
            clear h
            by_cases h : s.peek 0 = '|' ∧ s.peek 1 = '|'
            · rw [if_pos h]
              refine ⟨⟨2, rfl⟩, ?_⟩
              intro t s' hOk
              simp only [Prod.mk.injEq, Except.ok.injEq] at hOk
              obtain ⟨rfl, rfl⟩ := hOk
              have hlt0 : s.i < s.fuente.length := peek_lt_of_ne_nul (by rw [h.1]; decide)
              have hlt1 : s.i + 1 < s.fuente.length := peek_lt_of_ne_nul' (by rw [h.2]; decide)
              refine ⟨(by decide : TOKEN "opOr" ≠ TOKEN "$"), rfl, rfl, ?_, 1, rfl⟩
              rw [payload_of_ne (by decide : TOKEN "opOr" ≠ TOKEN "cadena")
                (by decide : TOKEN "opOr" ≠ TOKEN "$")]
              show "||".toList = _
              rw [Lexer.adv_i, Lexer.adv_i, pySlice_two hlt0 hlt1, ← peek_zero, ← peek_def, h.1, h.2]
              decide
            · rw [if_neg h]
              clear h
              constructor
              · refine ⟨1, ?_⟩
                rw [(scanSingleChar_spec s).1]
                rfl
              · exact fun t s' hOk => (scanSingleChar_spec s).2 t s' hOk

theorem scanOne_spec (s : Lexer) :
    (∃ k, (scanOne s).2 = s.advanceN k) ∧
    ∀ t s', scanOne s = (.ok t, s') →
      t.tipo ≠ TOKEN "$" ∧ t.linea = s.linea ∧ t.columna = s.columna ∧
        payload t = pySlice s.fuente s.i s'.i ∧ ∃ k, s' = s.advanceN (k + 1) := by
  unfold scanOne
  dsimp only
  by_cases hA : (pyIsAlpha (s.peek 0) || s.peek 0 == '_') = true
  · rw [if_pos hA]
    obtain ⟨t0, s0, heq, hlex, hlin, hcol, hc1, hc2, k0, hs0⟩ := scanIdentOrReserved_spec hA
    constructor
    · exact ⟨k0 + 1, by rw [heq]; exact hs0⟩
    · intro t s' hOk
      rw [heq] at hOk
      simp only [Prod.mk.injEq, Except.ok.injEq] at hOk
      obtain ⟨rfl, rfl⟩ := hOk
      exact ⟨hc2, hlin, hcol, by rw [payload_of_ne hc1 hc2]; exact hlex, k0, hs0⟩
  · rw [if_neg hA]
    by_cases hB : pyIsDigit (s.peek 0) = true
    · rw [if_pos hB]
      constructor
      · exact scanNumber_advanceN s
      · intro t s' hOk
        by_cases hg : s.peek (digitRun s.fuente s.i) = '.' ∧
            pyIsDigit (s.peek (digitRun s.fuente s.i + 1)) = true
        · rw [(scanNumber_spec s).1 hg] at hOk
          simp only [Prod.mk.injEq, Except.ok.injEq] at hOk
          obtain ⟨rfl, rfl⟩ := hOk
          refine ⟨(by decide : TOKEN "real" ≠ TOKEN "$"), rfl, rfl, ?_, ?_⟩
          · rw [payload_of_ne (by decide : TOKEN "real" ≠ TOKEN "cadena")
              (by decide : TOKEN "real" ≠ TOKEN "$"), advanceN_i]
            show pySlice s.fuente s.i (s.i + digitRun s.fuente s.i + 1 +
              digitRun s.fuente (s.i + digitRun s.fuente s.i + 1)) = _
            congr 1
            omega
          · refine ⟨digitRun s.fuente s.i + digitRun s.fuente (s.i + digitRun s.fuente s.i + 1),
              ?_⟩
            congr 1
            omega
        · rw [(scanNumber_spec s).2 hg] at hOk
          simp only [Prod.mk.injEq, Except.ok.injEq] at hOk
          obtain ⟨rfl, rfl⟩ := hOk
          have hd : digitRun s.fuente s.i = digitRun s.fuente (s.i + 1) + 1 := by
            apply digitRun_pos
            rw [← peek_zero]
            exact hB
          refine ⟨(by decide : TOKEN "entero" ≠ TOKEN "$"), rfl, rfl, ?_, ?_⟩
          · rw [payload_of_ne (by decide : TOKEN "entero" ≠ TOKEN "cadena")
              (by decide : TOKEN "entero" ≠ TOKEN "$"), advanceN_i]
          · exact ⟨digitRun s.fuente (s.i + 1), by rw [hd]⟩
    · rw [if_neg hB]
      by_cases hC : s.peek 0 = '"'
      · rw [if_pos hC]
        constructor
        · exact scanString_advanceN' s
        · intro t s' hOk
          obtain ⟨h1, h2, h3, h4, h5, h6, h7, h8, h9⟩ := scanString_ok hC hOk
          obtain ⟨k, hk⟩ := scanString_advanceN s
          rw [hOk] at hk
          refine ⟨by rw [h1]; decide, h2, h3, ?_, k, ?_⟩
          · rw [payload_cadena h1]
            exact h9.symm
          · simpa using hk
      · rw [if_neg hC]
        exact scanOpPunct_spec s

/-! ### Lemmas about the token stream -/

theorem skipWhitespace_nul {s : Lexer} (h : s.peek 0 = nulChar) :
    skipWhitespace s = (.ok (), s) := by
  unfold skipWhitespace
  rw [skipWhitespaceF]
  rw [if_neg (by rw [h]; decide)]
  rw [if_neg (by rw [h]; intro hc; exact absurd hc.1 (by decide))]
  rw [if_neg (by rw [h]; intro hc; exact absurd hc.1 (by decide))]

theorem tokensFrom_eq (s : Lexer) :
    tokensFrom s = tokensFromF (s.fuente.length - s.i + 1) s := rfl

set_option maxHeartbeats 2000000 in
theorem tokensFromF_final :
    ∀ (fuel : Nat) (s : Lexer), s.fuente.length - s.i < fuel →
      (tokensFromF fuel s).final.fuente = s.fuente ∧ s.i ≤ (tokensFromF fuel s).final.i := by
  intro fuel
  induction fuel with
  | zero => intro s h; omega
  | succ fuel ih =>
    intro s h
    rw [tokensFromF]
    obtain ⟨k0, hk0⟩ := skipWhitespace_advanceN s
    rcases hsw : skipWhitespace s with ⟨res, s1⟩
    rw [hsw] at hk0
    simp only at hk0
    subst hk0
    cases res with
    | error e =>
      dsimp only
      rw [advanceN_fuente, advanceN_i]
      exact ⟨rfl, by omega⟩
    | ok u =>
      dsimp only
      by_cases hnul : (s.advanceN k0).peek 0 = nulChar
      · rw [if_pos hnul]
        dsimp only
        rw [advanceN_fuente, advanceN_i]
        exact ⟨rfl, by omega⟩
      · rw [if_neg hnul]
        have hlt1 : (s.advanceN k0).i < (s.advanceN k0).fuente.length := peek_lt_of_ne_nul hnul
        rw [advanceN_fuente, advanceN_i] at hlt1
        rcases hso : scanOne (s.advanceN k0) with ⟨res2, s2⟩
        obtain ⟨k1, hk1⟩ := (scanOne_spec (s.advanceN k0)).1
        rw [hso] at hk1
        simp only at hk1
        subst hk1
        cases res2 with
        | error e =>
          dsimp only
          rw [advanceN_add, advanceN_fuente, advanceN_i]
          exact ⟨rfl, by omega⟩
        | ok t =>
          dsimp only
          obtain ⟨_, _, _, _, k2, hk2⟩ := (scanOne_spec (s.advanceN k0)).2 t _ hso
          rw [hk2, advanceN_add]
          have hsuff : (s.advanceN (k0 + (k2 + 1))).fuente.length -
              (s.advanceN (k0 + (k2 + 1))).i < fuel := by
            rw [advanceN_fuente, advanceN_i]
            omega
          have hrec := ih (s.advanceN (k0 + (k2 + 1))) hsuff
          rw [advanceN_fuente, advanceN_i] at hrec
          exact ⟨hrec.1, by omega⟩

theorem nul_peek_end {s : Lexer} (hnul : s.peek 0 = nulChar) (hnomem : nulChar ∉ s.fuente) :
    s.fuente.length ≤ s.i := by
  by_contra hcon
  push_neg at hcon
  rw [peek_zero, List.getD_eq_getElem _ _ hcon] at hnul
  exact hnomem (hnul ▸ List.getElem_mem hcon)

set_option maxHeartbeats 2000000 in
theorem tokensFromF_dollar :
    ∀ (fuel : Nat) (s : Lexer), s.fuente.length - s.i < fuel →
      (tokensFromF fuel s).err = none →
      ∃ ts t, (tokensFromF fuel s).toks = ts ++ [t] ∧ t.tipo = TOKEN "$" ∧
        t.lexema = "$".toList ∧ (∀ u ∈ ts, u.tipo ≠ TOKEN "$") ∧
        (nulChar ∉ s.fuente → s.fuente.length ≤ (tokensFromF fuel s).final.i) := by
  intro fuel
  induction fuel with
  | zero => intro s h; omega
  | succ fuel ih =>
    intro s h herr
    rw [tokensFromF] at herr ⊢
    obtain ⟨k0, hk0⟩ := skipWhitespace_advanceN s
    rcases hsw : skipWhitespace s with ⟨res, s1⟩
    rw [hsw] at hk0 herr
    simp only at hk0
    subst hk0
    cases res with
    | error e => simp at herr
    | ok u =>
      dsimp only at herr ⊢
      by_cases hnul : (s.advanceN k0).peek 0 = nulChar
      · rw [if_pos hnul] at herr ⊢
        dsimp only at herr ⊢
        refine ⟨[], _, rfl, rfl, rfl, by simp, ?_⟩
        intro hnomem
        have hend := nul_peek_end hnul (by rw [advanceN_fuente]; exact hnomem)
        rw [advanceN_fuente, advanceN_i] at hend
        rw [advanceN_i]
        omega
      · rw [if_neg hnul] at herr ⊢
        have hlt1 : (s.advanceN k0).i < (s.advanceN k0).fuente.length :=
          peek_lt_of_ne_nul hnul
        rw [advanceN_fuente, advanceN_i] at hlt1
        rcases hso : scanOne (s.advanceN k0) with ⟨res2, s2⟩
        rw [hso] at herr
        cases res2 with
        | error e => simp at herr
        | ok t =>
          dsimp only at herr ⊢
          obtain ⟨htne, _, _, _, k2, hk2⟩ := (scanOne_spec (s.advanceN k0)).2 t _ hso
          rw [hk2, advanceN_add] at herr ⊢
          have hsuff : (s.advanceN (k0 + (k2 + 1))).fuente.length -
              (s.advanceN (k0 + (k2 + 1))).i < fuel := by
            rw [advanceN_fuente, advanceN_i]
            omega
          obtain ⟨ts', t', htoks, ht1, ht2, ht3, ht4⟩ := ih _ hsuff herr
          refine ⟨t :: ts', t', ?_, ht1, ht2, ?_, ?_⟩
          · rw [htoks, List.cons_append]
          · intro u hu
            rcases List.mem_cons.mp hu with rfl | hu'
            · exact htne
            · exact ht3 u hu'
          · intro hnomem
            have := ht4 (by rw [advanceN_fuente]; exact hnomem)
            rw [advanceN_fuente] at this
            exact this

set_option maxHeartbeats 2000000 in
theorem tokensFromF_reconstruct :
    ∀ (fuel : Nat) (s : Lexer), s.fuente.length - s.i < fuel →
      (tokensFromF fuel s).err = none →
      interleave (tokensFromF fuel s).skips ((tokensFromF fuel s).toks.map payload) =
        pySlice s.fuente s.i (tokensFromF fuel s).final.i := by
  intro fuel
  induction fuel with
  | zero => intro s h; omega
  | succ fuel ih =>
    intro s h herr
    rw [tokensFromF] at herr ⊢
    obtain ⟨k0, hk0⟩ := skipWhitespace_advanceN s
    rcases hsw : skipWhitespace s with ⟨res, s1⟩
    rw [hsw] at hk0 herr
    simp only at hk0
    subst hk0
    cases res with
    | error e => simp at herr
    | ok u =>
      dsimp only at herr ⊢
      by_cases hnul : (s.advanceN k0).peek 0 = nulChar
      · rw [if_pos hnul] at herr ⊢
        dsimp only at herr ⊢
        have hpay : payload ⟨TOKEN "$", "$".toList,
            (s.advanceN k0).linea, (s.advanceN k0).columna⟩ = [] := by
          unfold payload
          rw [if_neg (by decide : ¬ ((TOKEN "$" : Nat) = TOKEN "cadena"))]
          rw [if_pos (rfl : (TOKEN "$" : Nat) = TOKEN "$")]
        simp only [List.map_cons, List.map_nil, hpay, interleave]
        simp
      · rw [if_neg hnul] at herr ⊢
        have hlt1 : (s.advanceN k0).i < (s.advanceN k0).fuente.length :=
          peek_lt_of_ne_nul hnul
        rw [advanceN_fuente, advanceN_i] at hlt1
        rcases hso : scanOne (s.advanceN k0) with ⟨res2, s2⟩
        rw [hso] at herr
        cases res2 with
        | error e => simp at herr
        | ok t =>
          dsimp only at herr ⊢
          obtain ⟨_, _, _, hpay, k2, hk2⟩ := (scanOne_spec (s.advanceN k0)).2 t _ hso
          rw [hk2, advanceN_add] at herr hpay ⊢
          rw [advanceN_fuente, advanceN_i, advanceN_i] at hpay
          have hsuff : (s.advanceN (k0 + (k2 + 1))).fuente.length -
              (s.advanceN (k0 + (k2 + 1))).i < fuel := by
            rw [advanceN_fuente, advanceN_i]
            omega
          have hrec := ih _ hsuff herr
          rw [advanceN_fuente, advanceN_i] at hrec
          obtain ⟨hfin1, hfin2⟩ := tokensFromF_final fuel (s.advanceN (k0 + (k2 + 1))) hsuff
          rw [advanceN_i] at hfin2
          simp only [List.map_cons, interleave]
          rw [advanceN_i, hpay, hrec]
          rw [pySlice_append (by omega) (by omega), pySlice_append (by omega) (by omega)]

set_option maxHeartbeats 2000000 in
theorem tokensFromF_lines :
    ∀ (fuel : Nat) (s : Lexer), s.fuente.length - s.i < fuel → lineInv s →
      ∀ (j st : Nat) (t : Token),
        (tokensFromF fuel s).toks.get? j = some t →
        (tokensFromF fuel s).starts.get? j = some st →
        t.linea = 1 + ((s.fuente.take st).count '\n') := by
  intro fuel
  induction fuel with
  | zero => intro s h; omega
  | succ fuel ih =>
    intro s h hinv j st t hget hst
    rw [tokensFromF] at hget hst
    obtain ⟨k0, hk0⟩ := skipWhitespace_advanceN s
    rcases hsw : skipWhitespace s with ⟨res, s1⟩
    rw [hsw] at hk0 hget hst
    simp only at hk0
    subst hk0
    cases res with
    | error e => simp at hget
    | ok u =>
      dsimp only at hget hst
      have hinv1 : lineInv (s.advanceN k0) := lineInv_advanceN hinv k0
      by_cases hnul : (s.advanceN k0).peek 0 = nulChar
      · rw [if_pos hnul] at hget hst
        dsimp only at hget hst
        cases j with
        | zero =>
          simp only [List.get?_cons_zero, Option.some.injEq] at hget hst
          subst hget
          subst hst
          unfold lineInv at hinv1
          rw [advanceN_fuente] at hinv1
          exact hinv1
        | succ j => simp at hget
      · rw [if_neg hnul] at hget hst
        have hlt1 : (s.advanceN k0).i < (s.advanceN k0).fuente.length :=
          peek_lt_of_ne_nul hnul
        rw [advanceN_fuente, advanceN_i] at hlt1
        rcases hso : scanOne (s.advanceN k0) with ⟨res2, s2⟩
        rw [hso] at hget hst
        cases res2 with
        | error e => simp at hget
        | ok t0 =>
          dsimp only at hget hst
          obtain ⟨_, hlin, _, _, k2, hk2⟩ := (scanOne_spec (s.advanceN k0)).2 t0 _ hso
          rw [hk2, advanceN_add] at hget hst
          cases j with
          | zero =>
            simp only [List.get?_cons_zero, Option.some.injEq] at hget hst
            subst hget
            subst hst
            unfold lineInv at hinv1
            rw [advanceN_fuente] at hinv1
            rw [hlin]
            exact hinv1
          | succ j =>
            simp only [List.get?_cons_succ] at hget hst
            have hsuff : (s.advanceN (k0 + (k2 + 1))).fuente.length -
                (s.advanceN (k0 + (k2 + 1))).i < fuel := by
              rw [advanceN_fuente, advanceN_i]
              omega
            have hinv2 : lineInv (s.advanceN (k0 + (k2 + 1))) := lineInv_advanceN hinv _
            have := ih _ hsuff hinv2 j st t hget hst
            rw [advanceN_fuente] at this
            exact this

/-! ### The claims -/

/-- Claim C1, amended: on every successful scan the token stream ends in exactly one
end-of-input token — the last token has kind `$` and lexeme `$`, no earlier token has
kind `$`, and nothing follows it — and, when the source contains no NUL character,
the `$` token appears only once the cursor has reached the end of the input.
(As originally stated the end-of-input clause also covered sources with embedded NUL
characters, which `c1_counterexample` refutes.) -/
theorem c1_end_token (src : List Char) (h : (tokens src).err = none) :
    ∃ ts t, (tokens src).toks = ts ++ [t] ∧ t.tipo = TOKEN "$" ∧ t.lexema = "$".toList ∧
      (∀ u ∈ ts, u.tipo ≠ TOKEN "$") ∧
      (nulChar ∉ src → src.length ≤ (tokens src).final.i) :=
  tokensFromF_dollar (src.length + 1) (Lexer.init src)
    (by show src.length - 0 < src.length + 1; omega) h

/-- Witness for C1 at the concrete source `x;`. -/
theorem c1_end_token_witness :
    (tokens "x;".toList).err = none ∧
    (∃ ts t, (tokens "x;".toList).toks = ts ++ [t] ∧ t.tipo = TOKEN "$" ∧
      t.lexema = "$".toList ∧ (∀ u ∈ ts, u.tipo ≠ TOKEN "$") ∧
      (nulChar ∉ "x;".toList → ("x;".toList).length ≤ (tokens "x;".toList).final.i)) :=
  ⟨by decide, c1_end_token _ (by decide)⟩

/-- Claim C1 is false as stated: on the source `NUL a` the scan succeeds with the `$`
token as its only token, although the end of the input was never reached (the final
cursor offset 0 lies before both characters). -/
theorem c1_counterexample :
    (tokens [nulChar, 'a']).err = none ∧
    ((tokens [nulChar, 'a']).toks.map Token.tipo) = [TOKEN "$"] ∧
    (tokens [nulChar, 'a']).final.i < ([nulChar, 'a'] : List Char).length := by
  decide

/-- Claim C2, amended: on every successful scan, concatenating in source order the
skipped whitespace/comment text with the consumed text of each token — the token's
lexeme, except that a string token's lexeme is wrapped back in its two delimiting
quotes and the end token's synthetic lexeme `$` contributes nothing — exactly
reconstructs the source up to the point where scanning stopped. -/
theorem c2_reconstruction (src : List Char) (h : (tokens src).err = none) :
    interleave (tokens src).skips ((tokens src).toks.map payload) =
      src.take (tokens src).final.i := by
  have hthis := tokensFromF_reconstruct (src.length + 1) (Lexer.init src)
    (by show src.length - 0 < src.length + 1; omega) h
  rw [show (Lexer.init src).fuente = src from rfl, show (Lexer.init src).i = 0 from rfl,
    pySlice_take] at hthis
  exact hthis

/-- Witness for C2 at the concrete source `( )`. -/
theorem c2_reconstruction_witness :
    (tokens "( )".toList).err = none ∧
    interleave (tokens "( )".toList).skips ((tokens "( )".toList).toks.map payload) =
      "( )".toList.take (tokens "( )".toList).final.i :=
  ⟨by decide, c2_reconstruction _ (by decide)⟩

/-- Claim C2 is false as stated: on the source `"a"` the scan succeeds consuming all
three characters, nothing is skipped as whitespace, yet the concatenation of the token
lexemes (with or without the `$` token's synthetic lexeme) differs from the consumed
source text, because the string token's lexeme omits the two quote characters. -/
theorem c2_counterexample :
    (tokens ['"', 'a', '"']).err = none ∧
    (tokens ['"', 'a', '"']).skips = [[], []] ∧
    ((tokens ['"', 'a', '"']).toks.map Token.lexema) = [['a'], ['$']] ∧
    (tokens ['"', 'a', '"']).final.i = 3 ∧
    interleave (tokens ['"', 'a', '"']).skips ((tokens ['"', 'a', '"']).toks.map Token.lexema) ≠
      (['"', 'a', '"'] : List Char).take (tokens ['"', 'a', '"']).final.i ∧
    List.flatten ((tokens ['"', 'a', '"']).toks.map Token.lexema) ≠
      (['"', 'a', '"'] : List Char).take (tokens ['"', 'a', '"']).final.i := by
  decide

/-- Claim C3: the number scan consumes the maximal leading digit run; when the
character after the run is `.` and the one after that is a digit it also consumes the
point and the maximal following digit run, returning a `real` token whose lexeme is
the exact literal substring; otherwise it returns an `entero` token of just the digits
and leaves the `.` unconsumed.  In particular `12.5` scans to one `real` token
`12.5`, and `12.` scans to an `entero` token `12` after which the standalone `.`
raises the `Símbolo inesperado` error. -/
theorem c3_number_scan :
    (∀ s : Lexer, pyIsDigit (s.peek 0) = true →
      (∀ j, j < digitRun s.fuente s.i → pyIsDigit (s.fuente.getD (s.i + j) nulChar) = true) ∧
      pyIsDigit (s.fuente.getD (s.i + digitRun s.fuente s.i) nulChar) = false ∧
      1 ≤ digitRun s.fuente s.i ∧
      ((s.peek (digitRun s.fuente s.i) = '.' ∧
          pyIsDigit (s.peek (digitRun s.fuente s.i + 1)) = true) →
        scanNumber s =
          (.ok ⟨TOKEN "real",
            pySlice s.fuente s.i (s.i + digitRun s.fuente s.i + 1 +
              digitRun s.fuente (s.i + digitRun s.fuente s.i + 1)),
            s.linea, s.columna⟩,
            s.advanceN (digitRun s.fuente s.i + 1 +
              digitRun s.fuente (s.i + digitRun s.fuente s.i + 1)))) ∧
      (¬(s.peek (digitRun s.fuente s.i) = '.' ∧
          pyIsDigit (s.peek (digitRun s.fuente s.i + 1)) = true) →
        scanNumber s =
          (.ok ⟨TOKEN "entero", pySlice s.fuente s.i (s.i + digitRun s.fuente s.i),
            s.linea, s.columna⟩,
            s.advanceN (digitRun s.fuente s.i)))) ∧
    tokens "12.5".toList =
      ⟨[⟨TOKEN "real", "12.5".toList, 1, 1⟩, ⟨TOKEN "$", "$".toList, 1, 5⟩],
        [[], []], [0, 4], ⟨"12.5".toList, 4, 1, 5⟩, none⟩ ∧
    tokens "12.".toList =
      ⟨[⟨TOKEN "entero", "12".toList, 1, 1⟩],
        [[], []], [0], ⟨"12.".toList, 3, 1, 4⟩, some ⟨msgInesperado '.', 1, 3⟩⟩ := by
  refine ⟨?_, by decide, by decide⟩
  intro s hd
  have hmax := digitRun_maximal s.fuente.length s.fuente s.i (by omega)
  have h1 : 1 ≤ digitRun s.fuente s.i := by
    rw [digitRun_pos (by rw [← peek_zero]; exact hd)]
    omega
  exact ⟨hmax.1, hmax.2, h1, (scanNumber_spec s).1, (scanNumber_spec s).2⟩

/-- Witness for C3 at the one-digit source `7`. -/
theorem c3_number_scan_witness :
    pyIsDigit ((Lexer.init "7".toList).peek 0) = true ∧
    scanNumber (Lexer.init "7".toList) =
      (.ok ⟨TOKEN "entero",
        pySlice (Lexer.init "7".toList).fuente (Lexer.init "7".toList).i
          ((Lexer.init "7".toList).i +
            digitRun (Lexer.init "7".toList).fuente (Lexer.init "7".toList).i),
        (Lexer.init "7".toList).linea, (Lexer.init "7".toList).columna⟩,
        (Lexer.init "7".toList).advanceN
          (digitRun (Lexer.init "7".toList).fuente (Lexer.init "7".toList).i)) :=
  ⟨by decide, ((c3_number_scan.1 (Lexer.init "7".toList) (by decide)).2.2.2.2) (by decide)⟩

/-- Claim C4: a string literal closed by a matching quote yields a `cadena` token
whose lexeme is exactly the source text strictly between the two quotes (the closing
quote is consumed but excluded); a backslash consumes itself and the next character
verbatim, so the eight-character source `"ab\"cd"` yields one `cadena` token with the
six-character lexeme `ab\"cd`. -/
theorem c4_string_content :
    (∀ (s s' : Lexer) (t : Token), s.peek 0 = '"' → scanString s = (.ok t, s') →
      t.tipo = TOKEN "cadena" ∧ t.linea = s.linea ∧ t.columna = s.columna ∧
      t.lexema = pySlice s.fuente (s.i + 1) (s'.i - 1) ∧
      s.fuente.getD (s'.i - 1) nulChar = '"' ∧ s.i + 1 ≤ s'.i - 1) ∧
    tokens ['"', 'a', 'b', '\\', '"', 'c', 'd', '"'] =
      ⟨[⟨TOKEN "cadena", ['a', 'b', '\\', '"', 'c', 'd'], 1, 1⟩,
        ⟨TOKEN "$", "$".toList, 1, 9⟩], [[], []], [0, 8],
        ⟨['"', 'a', 'b', '\\', '"', 'c', 'd', '"'], 8, 1, 9⟩, none⟩ := by
  refine ⟨?_, by decide⟩
  intro s s' t hq heq
  obtain ⟨h1, h2, h3, h4, h5, h6, _⟩ := scanString_ok hq heq
  exact ⟨h1, h2, h3, h4, h5, h6⟩

/-- Witness for C4 at the concrete source `"x"`. -/
theorem c4_string_content_witness :
    (Lexer.init ['"', 'x', '"']).peek 0 = '"' ∧
    scanString (Lexer.init ['"', 'x', '"']) =
      (.ok ⟨TOKEN "cadena", ['x'], 1, 1⟩, ⟨['"', 'x', '"'], 3, 1, 4⟩) ∧
    (⟨TOKEN "cadena", ['x'], 1, 1⟩ : Token).lexema =
      pySlice (Lexer.init ['"', 'x', '"']).fuente ((Lexer.init ['"', 'x', '"']).i + 1)
        ((⟨['"', 'x', '"'], 3, 1, 4⟩ : Lexer).i - 1) := by
  refine ⟨by decide, by rfl, ?_⟩
  exact (c4_string_content.1 (Lexer.init ['"', 'x', '"']) ⟨['"', 'x', '"'], 3, 1, 4⟩
    ⟨TOKEN "cadena", ['x'], 1, 1⟩ (by decide) (by rfl)).2.2.2.1

/-- Claim C5: when the input ends inside a string literal the scanner raises the
`Cadena sin cerrar` error located at the opening quote's line and column, not at the
position where the input ran out; this holds in particular for a string ending in a
trailing backslash. -/
theorem c5_unterminated_string :
    (∀ (s s' : Lexer) (e : LexerError), s.peek 0 = '"' → scanString s = (.error e, s') →
      e.msg = "Cadena sin cerrar" → e.linea = s.linea ∧ e.columna = s.columna) ∧
    tokens ['"', 'a', 'b', 'c'] =
      ⟨[], [[]], [], ⟨['"', 'a', 'b', 'c'], 4, 1, 5⟩, some ⟨"Cadena sin cerrar", 1, 1⟩⟩ ∧
    tokens ['"', 'a', '\\'] =
      ⟨[], [[]], [], ⟨['"', 'a', '\\'], 3, 1, 4⟩, some ⟨"Cadena sin cerrar", 1, 1⟩⟩ := by
  refine ⟨?_, by decide, by decide⟩
  intro s s' e _ heq hmsg
  exact scanString_err heq hmsg

/-- Witness for C5 at the concrete source `"`. -/
theorem c5_unterminated_string_witness :
    (Lexer.init ['"']).peek 0 = '"' ∧
    scanString (Lexer.init ['"']) =
      (.error ⟨"Cadena sin cerrar", 1, 1⟩, ⟨['"'], 1, 1, 2⟩) ∧
    (⟨"Cadena sin cerrar", 1, 1⟩ : LexerError).linea = (Lexer.init ['"']).linea ∧
    (⟨"Cadena sin cerrar", 1, 1⟩ : LexerError).columna = (Lexer.init ['"']).columna := by
  refine ⟨by decide, by rfl, ?_⟩
  exact c5_unterminated_string.1 (Lexer.init ['"']) ⟨['"'], 1, 1, 2⟩
    ⟨"Cadena sin cerrar", 1, 1⟩ (by decide) (by rfl) (by decide)

/-- Claim C6, amended: the unterminated-block-comment error carries the line and
column of the current cursor position where the scan stalled at the end of the input,
not the position of the comment's opening delimiter. -/
theorem c6_block_comment_error :
    (∀ (s s' : Lexer) (e : LexerError), skipBlockComment s = (.error e, s') →
      e.msg = "Comentario bloque sin cerrar" ∧ e.linea = s'.linea ∧ e.columna = s'.columna ∧
        s'.peek 0 = nulChar) ∧
    tokens ['/', '*', 'a'] =
      ⟨[], [['/', '*', 'a']], [], ⟨['/', '*', 'a'], 3, 1, 4⟩,
        some ⟨"Comentario bloque sin cerrar", 1, 4⟩⟩ := by
  refine ⟨?_, by decide⟩
  intro s s' e heq
  exact skipBlockComment_error heq

/-- Witness for C6 at a comment body starting right after `/*`. -/
theorem c6_block_comment_error_witness :
    skipBlockComment ⟨['/', '*'], 2, 1, 3⟩ =
      (.error ⟨"Comentario bloque sin cerrar", 1, 3⟩, ⟨['/', '*'], 2, 1, 3⟩) ∧
    ((⟨"Comentario bloque sin cerrar", 1, 3⟩ : LexerError).msg =
        "Comentario bloque sin cerrar" ∧
      (⟨"Comentario bloque sin cerrar", 1, 3⟩ : LexerError).linea =
        (⟨['/', '*'], 2, 1, 3⟩ : Lexer).linea ∧
      (⟨"Comentario bloque sin cerrar", 1, 3⟩ : LexerError).columna =
        (⟨['/', '*'], 2, 1, 3⟩ : Lexer).columna ∧
      (⟨['/', '*'], 2, 1, 3⟩ : Lexer).peek 0 = nulChar) :=
  ⟨by rfl, c6_block_comment_error.1 ⟨['/', '*'], 2, 1, 3⟩ ⟨['/', '*'], 2, 1, 3⟩
    ⟨"Comentario bloque sin cerrar", 1, 3⟩ (by rfl)⟩

/-- Claim C6 is false as stated: for the source `/*a` the comment opens at line 1
column 1, but the raised error carries column 4 — the cursor position where the end of
the input was reached — not the opening delimiter's column. -/
theorem c6_counterexample :
    (tokens ['/', '*', 'a']).err = some ⟨"Comentario bloque sin cerrar", 1, 4⟩ ∧
    Option.map LexerError.columna (tokens ['/', '*', 'a']).err ≠ some 1 := by
  decide

/-- Claim C7 names a real defect: the identifier scan was documented (both in the
spec and in the source's own comment) to accept only ASCII letters and underscore,
but it uses Python's Unicode `isalpha`, so the non-ASCII letter `ñ` starts an
identifier instead of raising the `Símbolo inesperado` error: the one-character
source `ñ` scans successfully into an identifier token. -/
theorem c7_nonascii_identifier :
    tokens ['ñ'] =
      ⟨[⟨TOKEN "identificador", ['ñ'], 1, 1⟩, ⟨TOKEN "$", "$".toList, 1, 2⟩],
        [[], []], [0, 1], ⟨['ñ'], 1, 1, 2⟩, none⟩ := by
  decide

/-- Claim C8: each `_advance` consumes exactly the current character and moves the
offset by one; a newline increments the line and resets the column to 1, any other
character increments the column; consequently every token's recorded line is one more
than the number of newline characters before the offset at which its scan started. -/
theorem c8_advance_invariant :
    (∀ s : Lexer, (s.advance).1 = s.peek 0 ∧ (s.advance).2.i = s.i + 1 ∧
      (s.advance).2.fuente = s.fuente ∧
      (s.peek 0 = '\n' → (s.advance).2.linea = s.linea + 1 ∧ (s.advance).2.columna = 1) ∧
      (s.peek 0 ≠ '\n' → (s.advance).2.linea = s.linea ∧
        (s.advance).2.columna = s.columna + 1)) ∧
    (∀ (src : List Char) (j st : Nat) (t : Token),
      (tokens src).toks.get? j = some t → (tokens src).starts.get? j = some st →
      t.linea = 1 + ((src.take st).count '\n')) := by
  constructor
  · intro s
    exact ⟨Lexer.advance_fst s, Lexer.adv_i s, Lexer.adv_fuente s,
      fun h => Lexer.adv_nl h, fun h => Lexer.adv_not_nl h⟩
  · intro src j st t hget hst
    have hthis := tokensFromF_lines (src.length + 1) (Lexer.init src)
      (by show src.length - 0 < src.length + 1; omega) (lineInv_init src) j st t hget hst
    simpa [Lexer.init] using hthis

/-- Witness for C8: a newline advance from line 1 reaches line 2 and column 1, and in
the source `\na` the token `a` starting at offset 1 records line 2. -/
theorem c8_advance_invariant_witness :
    (⟨['\n'], 0, 1, 5⟩ : Lexer).peek 0 = '\n' ∧
    ((⟨['\n'], 0, 1, 5⟩ : Lexer).advance).2.linea = 2 ∧
    ((⟨['\n'], 0, 1, 5⟩ : Lexer).advance).2.columna = 1 ∧
    (tokens "\na".toList).toks.get? 0 = some ⟨TOKEN "identificador", ['a'], 2, 1⟩ ∧
    (tokens "\na".toList).starts.get? 0 = some 1 ∧
    (⟨TOKEN "identificador", ['a'], 2, 1⟩ : Token).linea =
      1 + (("\na".toList.take 1).count '\n') := by
  refine ⟨by decide, ?_, ?_, by decide, by decide, ?_⟩
  · exact ((c8_advance_invariant.1 ⟨['\n'], 0, 1, 5⟩).2.2.2.1 (by decide)).1
  · exact ((c8_advance_invariant.1 ⟨['\n'], 0, 1, 5⟩).2.2.2.1 (by decide)).2
  · exact c8_advance_invariant.2 "\na".toList 0 1 ⟨TOKEN "identificador", ['a'], 2, 1⟩
      (by decide) (by decide)

/-- Claim C9: the defensive `Se esperaba al menos un dígito después del punto` branch
of the number scan is unreachable — for every scanner state the number scan returns a
token, never an error, because the `.` is consumed only under the lookahead guard that
the character after it is a digit. -/
theorem c9_defensive_unreachable : ∀ s : Lexer, ∃ t s', scanNumber s = (.ok t, s') :=
  scanNumber_ok

/-- Claim C10, amended: `_peek` returns the same end-of-input sentinel for an
in-range NUL character as for an out-of-range position, so whenever the cursor sees
the sentinel at a token boundary the scan yields exactly the `$` token at the current
line/column and stops with nothing further consumed; characters after an embedded NUL
are left unscanned, and inside a string literal an embedded NUL triggers the
unterminated-string error.  (Inside a block comment an embedded NUL instead triggers
the unterminated-comment error, which `c10_counterexample` records.) -/
theorem c10_nul_sentinel :
    (∀ s : Lexer, s.peek 0 = nulChar →
      tokensFrom s = ⟨[⟨TOKEN "$", "$".toList, s.linea, s.columna⟩], [[]], [s.i], s, none⟩) ∧
    tokens ['a', nulChar, 'b'] =
      ⟨[⟨TOKEN "identificador", ['a'], 1, 1⟩, ⟨TOKEN "$", "$".toList, 1, 2⟩],
        [[], []], [0, 1], ⟨['a', nulChar, 'b'], 1, 1, 2⟩, none⟩ ∧
    tokens ['"', 'a', nulChar, 'b', '"'] =
      ⟨[], [[]], [], ⟨['"', 'a', nulChar, 'b', '"'], 2, 1, 3⟩,
        some ⟨"Cadena sin cerrar", 1, 1⟩⟩ := by
  refine ⟨?_, by decide, by decide⟩
  intro s h
  rw [tokensFrom_eq, tokensFromF]
  rw [skipWhitespace_nul h]
  dsimp only
  rw [if_pos h, pySlice_self]

/-- Witness for C10 at the empty source. -/
theorem c10_nul_sentinel_witness :
    (Lexer.init []).peek 0 = nulChar ∧
    tokensFrom (Lexer.init []) =
      ⟨[⟨TOKEN "$", "$".toList, (Lexer.init []).linea, (Lexer.init []).columna⟩],
        [[]], [(Lexer.init []).i], Lexer.init [], none⟩ :=
  ⟨by decide, c10_nul_sentinel.1 (Lexer.init []) (by decide)⟩

/-- Claim C10 is false as stated: in the source `/*a` NUL `*/` the NUL sits outside
any string literal, yet the scan raises the unterminated-block-comment error and
yields no token at all, rather than yielding the `$` token at the NUL. -/
theorem c10_counterexample :
    (tokens ['/', '*', 'a', nulChar, '*', '/']).toks = [] ∧
    (tokens ['/', '*', 'a', nulChar, '*', '/']).err =
      some ⟨"Comentario bloque sin cerrar", 1, 4⟩ := by
  decide
